import Mathlib

/-!
Verification development for the mtg_price_predictor repository.

The core under scrutiny is the merge/reconciliation engine
(src/data_preprocessing/merge_data.py) and the outlier-filtering and
aggregation code (src/data_preprocessing/clean_data.py).

Pandas DataFrames are embedded as `Frame`: an ordered list of column
names together with positional rows of `Val` cells.  `Val.na` models
both numpy NaN and pandas NA (the sources never distinguish them in a
way the claims depend on); arithmetic and comparisons follow pandas
semantics (NaN poisons arithmetic, comparisons against NaN are False).
Calendar days are the `"YYYY-MM-DD"` strings the source itself uses as
join keys; `pd.to_datetime(...).dt.strftime("%Y-%m-%d")` on an
ISO-formatted timestamp column (tz_localize only attaches a zone, it
does not shift the clock) is modelled by taking the first ten
characters of the string.  Monetary quantities are rationals.
Fallible pandas operations (column lookups, merges on missing keys)
return `Except String`, the raised exception being the error value.
-/

/-- Cell value of a DataFrame: missing (NaN/NA), string, numeric or boolean. -/
inductive Val where
  | na : Val
  | str : String → Val
  | num : ℚ → Val
  | bool : Bool → Val
deriving DecidableEq

/-- Does a cell hold NaN/NA? -/
def Val.isNa : Val → Bool
  | Val.na => true
  | _ => false

/-- Pandas `>` on cells: true only when both sides are numeric and the
first exceeds the second; any comparison involving NaN is False. -/
def Val.gtB : Val → Val → Bool
  | Val.num x, Val.num y => decide (y < x)
  | _, _ => false

/-- Pandas multiplication on cells: NaN-poisoning. -/
def Val.mul : Val → Val → Val
  | Val.num x, Val.num y => Val.num (x * y)
  | _, _ => Val.na

/-- Pandas `Series.fillna` on one cell. -/
def Val.fillna (v d : Val) : Val := if v = Val.na then d else v

/-- Day key taken from an ISO timestamp string: the `"%Y-%m-%d"` prefix.
Models `pd.to_datetime(col).dt.tz_localize("US/Eastern").dt.strftime("%Y-%m-%d")`
from merge_data.py lines 109-111 (localization attaches a zone without
changing the wall-clock date).  Non-string cells give NaN. -/
def Val.dayKey : Val → Val
  | Val.str s => Val.str (String.mk (s.data.take 10))
  | _ => Val.na

/-- Lexicographic strict order on character lists by code point - the
order Python and pandas use on the ISO day strings. -/
def charListLt : List Char → List Char → Bool
  | [], [] => false
  | [], _ :: _ => true
  | _ :: _, [] => false
  | a :: as, b :: bs =>
      if a.toNat < b.toNat then true
      else if b.toNat < a.toNat then false
      else charListLt as bs

/-- Strict ordering used by `sort_values("date")`: dates are the ISO day
strings, compared lexicographically (= chronologically); NaN sorts last. -/
def Val.dateLtB : Val → Val → Bool
  | Val.str x, Val.str y => charListLt x.data y.data
  | Val.na, _ => false
  | _, Val.na => true
  | _, _ => false

/-- First index of a column name in a header list. -/
def idxOf? (c : String) : List String → Option Nat
  | [] => none
  | a :: t => if a = c then some 0 else (idxOf? c t).map (· + 1)

/-- Deduplication keeping first occurrences, with an accumulator of names
already seen.  Models the iteration over the Python `set` union at
merge_data.py line 104 (set order is unspecified there; the claims never
depend on the order, only on the underlying set). -/
def dedupFirstAux [DecidableEq α] (seen : List α) : List α → List α
  | [] => []
  | a :: t => if a ∈ seen then dedupFirstAux seen t
              else a :: dedupFirstAux (seen ++ [a]) t

/-- Deduplication keeping first occurrences. -/
def dedupFirst [DecidableEq α] (l : List α) : List α := dedupFirstAux [] l

/-- Forward fill: each NaN cell takes the closest earlier non-NaN value,
carrying `carry` in from the left. -/
def ffillAux (carry : Val) : List Val → List Val
  | [] => []
  | v :: t =>
      if v.isNa then carry :: ffillAux carry t
      else v :: ffillAux v t

/-- Pandas `Series.ffill`. -/
def ffill (l : List Val) : List Val := ffillAux Val.na l

/-- Pandas `Series.bfill`: forward fill on the reversed series. -/
def bfill (l : List Val) : List Val := (ffill l.reverse).reverse

/-- Stable insertion of a row into a list sorted by the strict order `lt`:
the row goes after any element it is not strictly below. -/
def insertBy (lt : α → α → Bool) (a : α) : List α → List α
  | [] => [a]
  | b :: t => if lt a b then a :: b :: t else b :: insertBy lt a t

/-- Stable sort by the strict order `lt` (rows with equal keys keep their
relative order, a deterministic refinement of `sort_values`). -/
def sortBy (lt : α → α → Bool) : List α → List α
  | [] => []
  | a :: t => insertBy lt a (sortBy lt t)

/-- Linear-interpolation quantile exactly as pandas computes it: with the
group values sorted ascending, the quantile `p` sits at fractional
position `p * (n - 1)`.  Empty input (never produced by a groupby) gives 0. -/
def quantileQ (vs : List ℚ) (p : ℚ) : ℚ :=
  let s := sortBy (fun x y : ℚ => decide (x < y)) vs
  let n := s.length
  if n = 0 then 0
  else
    let h : ℚ := p * (n - 1)
    let i : Nat := h.floor.toNat
    let frac : ℚ := h - (i : ℚ)
    if i + 1 < n then s.getD i 0 + frac * (s.getD (i + 1) 0 - s.getD i 0)
    else s.getD i 0

/-- Shallow embedding of a pandas DataFrame: ordered column names and
positional rows. -/
structure Frame where
  cols : List String
  rows : List (List Val)
deriving DecidableEq

/-- Well-formed frame: every row has one cell per column. -/
def Frame.WF (f : Frame) : Prop := ∀ r ∈ f.rows, r.length = f.cols.length

instance (f : Frame) : Decidable f.WF := by
  unfold Frame.WF; infer_instance

/-- Cell of a row under a header; absent columns read as NaN (callers that
can raise KeyError go through `Frame.getCol`). -/
def rowGet (cols : List String) (r : List Val) (c : String) : Val :=
  match idxOf? c cols with
  | some i => r.getD i Val.na
  | none => Val.na

/-- Cells of one column in row order (NaN where absent). -/
def colVals (f : Frame) (c : String) : List Val :=
  f.rows.map (fun r => rowGet f.cols r c)

/-- Column as a list of cells; raises KeyError when the column is absent,
as `df[col]` does. -/
def Frame.getCol (f : Frame) (c : String) : Except String (List Val) :=
  match idxOf? c f.cols with
  | some _ => Except.ok (colVals f c)
  | none => Except.error ("KeyError: " ++ c)

/-- Column assignment `df[col] = values`: overwrites in place when the
column exists, otherwise appends a new column. -/
def Frame.setCol (f : Frame) (c : String) (vs : List Val) : Frame :=
  match idxOf? c f.cols with
  | some i => ⟨f.cols, (f.rows.zip vs).map (fun p => p.1.set i p.2)⟩
  | none => ⟨f.cols ++ [c], (f.rows.zip vs).map (fun p => p.1 ++ [p.2])⟩

/-- Column projection `df[[c1, ..., ck]]`; KeyError when any is absent. -/
def Frame.select (f : Frame) (cs : List String) : Except String Frame :=
  if cs.all (fun c => (idxOf? c f.cols).isSome) then
    Except.ok ⟨cs, f.rows.map (fun r => cs.map (fun c => rowGet f.cols r c))⟩
  else Except.error "KeyError: select"

/-- Column drop `df.drop(columns=[c])`. -/
def Frame.dropCol (f : Frame) (c : String) : Frame :=
  ⟨f.cols.filter (fun c' => c' ≠ c),
   f.rows.map (fun r => ((f.cols.zip r).filter (fun p => p.1 ≠ c)).map (fun p => p.2))⟩

/-- Row filter keeping rows whose predicate on cells holds. -/
def Frame.filterRows (f : Frame) (p : List String → List Val → Bool) : Frame :=
  ⟨f.cols, f.rows.filter (p f.cols)⟩

/-- Stable sort of the rows by the `"date"` column
(`df.sort_values("date")`, merge_data.py line 114). -/
def Frame.sortByDate (f : Frame) : Frame :=
  ⟨f.cols, sortBy (fun r1 r2 => Val.dateLtB (rowGet f.cols r1 "date") (rowGet f.cols r2 "date")) f.rows⟩

/-- Per-group forward- then back-fill along the current row order:
`df.groupby(g)[c].transform(lambda x: x.ffill().bfill())`
(merge_data.py line 115).  `gs` are the group keys, `vs` the cells, both
in row order; position `i` receives the filled value at its place inside
its own group's subsequence. -/
def transformFfillBfill (gs vs : List Val) : List Val :=
  (List.range vs.length).map (fun i =>
    let g := gs.getD i Val.na
    let ps := (List.range vs.length).filter (fun j => gs.getD j Val.na = g)
    let filled := bfill (ffill (ps.map (fun j => vs.getD j Val.na)))
    filled.getD (ps.indexOf i) Val.na)

/-- Join keys of every merge reached by merge_data before it fails:
`on=["card_sku_id", "date"]` (lines 126-130, 142, 145, 148-152). -/
def mergeKeys : List String := ["card_sku_id", "date"]

/-- Overlapping (suffix-receiving) columns of a pandas merge: columns
present on both sides that are not join keys. -/
def overlapCols (L R : List String) : List String :=
  L.filter (fun c => c ∈ R ∧ c ∉ mergeKeys)

/-- Suffix renaming pandas applies to one side of a merge. -/
def renameWith (ov : List String) (sfx : String) (c : String) : String :=
  if c ∈ ov then c ++ sfx else c

/-- The (card_sku_id, date) key of a row. -/
def keyOfRow (cols : List String) (r : List Val) : Val × Val :=
  (rowGet cols r "card_sku_id", rowGet cols r "date")

/-- Right-side row with the join-key cells removed, aligned with the
right-side non-key columns. -/
def stripKeys (cols : List String) (r : List Val) : List Val :=
  ((cols.zip r).filter (fun p => p.1 ∉ mergeKeys)).map (fun p => p.2)

/-- Pandas left merge `L.merge(R, on=["card_sku_id", "date"], how="left",
suffixes=(sl, sr))`: KeyError when either side lacks a join key; columns
shared by both sides (keys aside) are renamed with the suffixes; each
left row yields one output row per matching right row and a NaN-padded
row when there is no match. -/
def leftMergeKD (L R : Frame) (sl sr : String) : Except String Frame :=
  if "card_sku_id" ∈ L.cols ∧ "date" ∈ L.cols ∧
     "card_sku_id" ∈ R.cols ∧ "date" ∈ R.cols then
    Except.ok
      ⟨ L.cols.map (renameWith (overlapCols L.cols R.cols) sl)
          ++ (R.cols.filter (fun c => c ∉ mergeKeys)).map
              (renameWith (overlapCols L.cols R.cols) sr),
        L.rows.flatMap (fun r =>
          if (R.rows.filter (fun rr => keyOfRow R.cols rr = keyOfRow L.cols r)).isEmpty then
            [r ++ List.replicate ((R.cols.filter (fun c => c ∉ mergeKeys)).length) Val.na]
          else (R.rows.filter (fun rr => keyOfRow R.cols rr = keyOfRow L.cols r)).map
              (fun rr => r ++ stripKeys R.cols rr)) ⟩
  else Except.error "KeyError: merge key"

/-- The three market tables handed to `merge_data` (the Python dict;
a missing dict entry is `none`). -/
structure MarketData where
  market_prices : Option Frame
  sales_history : Option Frame
  listings : Option Frame
deriving DecidableEq

/-- Input validation of merge_data.py lines 79-89, in source order: a
falsy or non-dict `market_data` (modelled as `none`), then a missing or
empty `card_attributes`, then any absent component table raise ValueError.
Nothing else is validated: empty component tables, missing join-key
columns and an empty entity set all pass. -/
def validateMergeData (md : Option MarketData) (ca : Option Frame) : Option String :=
  match md with
  | none => some "ValueError: market_data is invalid or empty"
  | some m =>
    match ca with
    | none => some "ValueError: card_attributes is invalid or empty"
    | some caf =>
      if caf.rows.isEmpty then some "ValueError: card_attributes is invalid or empty"
      else if m.market_prices.isNone ∨ m.sales_history.isNone ∨ m.listings.isNone then
        some "ValueError: Missing required market_data components"
      else none

/-- Day-key column assignment `df["date"] = to_datetime(df[tcol])...`
(pure part; the guard that `tcol` exists sits in the callers). -/
def dateStamped (f : Frame) (tcol : String) : Frame :=
  f.setCol "date" ((colVals f tcol).map Val.dayKey)

/-- Line 109: date-stamp market_prices from `updated_at` (KeyError when
the timestamp column is missing, before any mutation). -/
def mpWithDate (f : Frame) : Except String Frame := do
  let _ ← f.getCol "updated_at"
  Except.ok (dateStamped f "updated_at")

/-- Line 110: date-stamp listings from `updated_at`. -/
def lsWithDate (f : Frame) : Except String Frame := do
  let _ ← f.getCol "updated_at"
  Except.ok (dateStamped f "updated_at")

/-- Line 111: date-stamp sales_history from `order_date`. -/
def shWithDate (f : Frame) : Except String Frame := do
  let _ ← f.getCol "order_date"
  Except.ok (dateStamped f "order_date")

/-- Lines 114-118 on the date-stamped market_prices: sort by day, gap-fill
`market` (and only `market`) per entity with forward- then back-fill, and
flag - not fill - the NaNs of `direct_low`, `low` and `lowest_list`. -/
def mpRest (f : Frame) : Except String Frame := do
  let s := f.sortByDate
  let mk ← s.getCol "market"
  let sk ← s.getCol "card_sku_id"
  let s1 := s.setCol "market" (transformFfillBfill sk mk)
  let dl ← s1.getCol "direct_low"
  let s2 := s1.setCol "is_direct_low_nan" (dl.map (fun v => Val.bool v.isNa))
  let lo ← s2.getCol "low"
  let s3 := s2.setCol "is_low_nan" (lo.map (fun v => Val.bool v.isNa))
  let ll ← s3.getCol "lowest_list"
  Except.ok (s3.setCol "is_lowest_list_nan" (ll.map (fun v => Val.bool v.isNa)))

/-- Lines 121-123 on the date-stamped listings: flag rows whose `price` is
NaN, then zero-fill NaNs of `quantity` and `direct_inventory_count` - on
the rows the listings table already has, before any join. -/
def lsRest (f : Frame) : Except String Frame := do
  let pr ← f.getCol "price"
  let f1 := f.setCol "is_missing_day" (pr.map (fun v => Val.bool v.isNa))
  let q ← f1.getCol "quantity"
  let f2 := f1.setCol "quantity" (q.map (fun v => v.fillna (Val.num 0)))
  let d ← f2.getCol "direct_inventory_count"
  Except.ok (f2.setCol "direct_inventory_count" (d.map (fun v => v.fillna (Val.num 0))))

/-- Line 131's flag formula on one sale row:
`(direct_low > 0) & (price > multiplier * direct_low)` with pandas NaN
semantics (a NaN on either side of a comparison gives False). -/
def extremeFlag (mult : ℚ) (dl p : Val) : Val :=
  Val.bool (Val.gtB dl (Val.num 0) && Val.gtB p (Val.mul (Val.num mult) dl))

/-- Lines 126-132 on the date-stamped sales_history: left-join the
`direct_low` of market_prices by (entity, day), flag each individual sale
row against its own price, then drop the joined column. -/
def salesRest (sh mp2 : Frame) (mult : ℚ) : Except String Frame := do
  let sel ← mp2.select ["card_sku_id", "date", "direct_low"]
  let m ← leftMergeKD sh sel "_x" "_y"
  let dl ← m.getCol "direct_low"
  let pr ← m.getCol "price"
  let m1 := m.setCol "is_extreme_outlier" (List.zipWith (extremeFlag mult) dl pr)
  Except.ok (m1.dropCol "direct_low")

/-- Lines 135-139: the dense grid of every relevant entity crossed with
every day of the configured window (`date_range` is passed in as the list
of day keys `pd.date_range(start, end)` produces). -/
def gridFrame (relevant : List Val) (days : List String) : Frame :=
  ⟨["card_sku_id", "date"],
   relevant.flatMap (fun s => days.map (fun d => [s, Val.str d]))⟩

/-- Number of rows of a frame carrying a given (entity, day) key. -/
def countKey (F : Frame) (k : Val × Val) : Nat :=
  F.rows.countP (fun r => decide (keyOfRow F.cols r = k))

/-- Frame of a successful pandas step (the empty frame on an exception);
used only to state concrete evaluations. -/
def unwrapOr (e : Except String Frame) : Frame :=
  match e with
  | Except.ok f => f
  | Except.error _ => ⟨[], []⟩

/-- Column slice taken from the aggregated sales table at line 149. -/
def salesSelCols : List String :=
  ["card_sku_id", "date", "quantity", "price", "is_extreme_outlier"]

/-- Lines 142 and 145: the grid left-joined with the preprocessed
market_prices, then with the preprocessed listings. -/
def gridPlusListings (relevant : List Val) (days : List String)
    (mp2 ls2 : Frame) : Except String Frame := do
  let m1 ← leftMergeKD (gridFrame relevant days) mp2 "_x" "_y"
  leftMergeKD m1 ls2 "" "_listings"

/-- Lines 142-152: all three grid joins, the last at raw sale granularity
with pandas default suffixes. -/
def joinedGrid (relevant : List Val) (days : List String)
    (mp2 ls2 sh2 : Frame) : Except String Frame := do
  let m2 ← gridPlusListings relevant days mp2 ls2
  let sel ← sh2.select salesSelCols
  leftMergeKD m2 sel "_x" "_y"

/-- Whole-stage views used by the theorems below (identical composites to
what merge_data runs, lines 109+114-118, 110+121-123, 111+126-132). -/
def mpStage (mp : Frame) : Except String Frame := mpWithDate mp >>= mpRest

/-- Listings stage: lines 110 and 121-123. -/
def lsStage (ls : Frame) : Except String Frame := lsWithDate ls >>= lsRest

/-- Sales stage: lines 111 and 126-132. -/
def shStage (sh mp2 : Frame) (mult : ℚ) : Except String Frame :=
  shWithDate sh >>= (salesRest · mp2 mult)

/-- Error placeholder for everything after merge_data.py line 153; the
preceding column lookup always raises (see the theorems on the sales
merge below), so no later line is ever executed and none is modelled. -/
def unreachableMsg : String := "unreachable: merge_data lines 154-241"

/-- Shallow embedding of `merge_data` (merge_data.py lines 56-245), with
the configured extreme-outlier multiplier and analysis window passed in
(the source loads them from filters.json; `days` stands for the list of
day keys of `pd.date_range(start_date, end_date)`).  Every fallible
pandas step appears in source order.  Line 153 reads column `"quantity"`
from the frame the sales merge just produced; both merge inputs carry a
`"quantity"` column, so pandas renamed them `"quantity_x"`/`"quantity_y"`
and the lookup raises KeyError on every run that gets this far. -/
def merge_data (md : Option MarketData) (ca : Option Frame) (mult : ℚ)
    (days : List String) : Except String Frame :=
  match validateMergeData md ca with
  | some e => Except.error e
  | none =>
    match md, ca with
    | some m, some caf =>
      match m.market_prices, m.sales_history, m.listings with
      | some mp, some sh, some ls => do
          let _ ← mp.getCol "direct_low"
          let _ ← mp.getCol "market"
          let _ ← mp.getCol "low"
          let _ ← mp.getCol "lowest_list"
          let mpSku ← mp.getCol "card_sku_id"
          let shSku ← sh.getCol "card_sku_id"
          let relevant := dedupFirst (mpSku ++ shSku)
          let _ ← caf.getCol "card_sku_id"
          let _caF := caf.filterRows
            (fun cols r => decide (rowGet cols r "card_sku_id" ∈ relevant))
          let mp1 ← mpWithDate mp
          let ls1 ← lsWithDate ls
          let sh1 ← shWithDate sh
          let mp2 ← mpRest mp1
          let ls2 ← lsRest ls1
          let sh2 ← salesRest sh1 mp2 mult
          let m3 ← joinedGrid relevant days mp2 ls2 sh2
          let _ ← m3.getCol "quantity"
          Except.error unreachableMsg
      | _, _, _ => Except.error "ValueError: Missing required market_data components"
    | _, _ => Except.error "ValueError: market_data is invalid or empty"

/-- Reads merge_data performs before its first in-place write (lines
96-105): the four price columns and `card_sku_id` of market_prices,
`card_sku_id` of sales_history and of card_attributes.  If any is
missing the function raises there, before mutating anything. -/
def preflightOk (mp sh caf : Frame) : Bool :=
  ["direct_low", "market", "low", "lowest_list", "card_sku_id"].all
      (fun c => (idxOf? c mp.cols).isSome)
    && (idxOf? "card_sku_id" sh.cols).isSome
    && (idxOf? "card_sku_id" caf.cols).isSome

/-- Caller-visible state of the `market_prices` frame after a merge_data
call (normal or exceptional): line 109 assigns a `date` column in place
on the caller's object; the rebinding at line 114 makes every later
operation act on a copy. -/
def mpAfterCall (mp sh caf : Frame) : Frame :=
  if preflightOk mp sh caf ∧ "updated_at" ∈ mp.cols then
    dateStamped mp "updated_at"
  else mp

/-- Caller-visible state of the `sales_history` frame after a merge_data
call: line 111 assigns a `date` column in place (reached when line 109
and 110 succeeded); the rebinding at line 126 shields it afterwards. -/
def shAfterCall (mp sh ls caf : Frame) : Frame :=
  if preflightOk mp sh caf ∧ "updated_at" ∈ mp.cols ∧ "updated_at" ∈ ls.cols
      ∧ "order_date" ∈ sh.cols then
    dateStamped sh "order_date"
  else sh

/-- Listings after the line-121 flag: `is_missing_day` from the NaN-ness
of `price`, on the date-stamped frame. -/
def lsFlag1 (ls : Frame) : Frame :=
  (dateStamped ls "updated_at").setCol "is_missing_day"
    ((colVals (dateStamped ls "updated_at") "price").map (fun v => Val.bool v.isNa))

/-- Listings after the line-122 zero-fill of `quantity`. -/
def lsFill2 (ls : Frame) : Frame :=
  (lsFlag1 ls).setCol "quantity"
    ((colVals (lsFlag1 ls) "quantity").map (fun v => v.fillna (Val.num 0)))

/-- Listings after the line-123 zero-fill of `direct_inventory_count`. -/
def lsFill3 (ls : Frame) : Frame :=
  (lsFill2 ls).setCol "direct_inventory_count"
    ((colVals (lsFill2 ls) "direct_inventory_count").map (fun v => v.fillna (Val.num 0)))

/-- Caller-visible state of the `listings` frame after a merge_data call:
line 110 assigns `date`, lines 121-123 assign `is_missing_day` and the
zero-filled `quantity` and `direct_inventory_count` - all in place on the
caller's object, which is never rebound before line 145.  Each write
happens only when the preceding reads succeeded. -/
def lsAfterCall (mp sh ls caf : Frame) : Frame :=
  if preflightOk mp sh caf ∧ "updated_at" ∈ mp.cols then
    if "updated_at" ∈ ls.cols then
      if "order_date" ∈ sh.cols then
        if "price" ∈ (dateStamped ls "updated_at").cols then
          if "quantity" ∈ (lsFlag1 ls).cols then
            if "direct_inventory_count" ∈ (lsFill2 ls).cols then lsFill3 ls
            else lsFill2 ls
          else lsFlag1 ls
        else dateStamped ls "updated_at"
      else dateStamped ls "updated_at"
    else ls
  else ls

/-- Caller-visible state of the `card_attributes` frame after a merge_data
call: line 105 rebinds the local name to a filtered copy, so the caller's
frame is never written to. -/
def caAfterCall (caf : Frame) : Frame := caf

/-- Values of one group of a grouped column, clean_data.py's
`df.groupby(group_by)[column]` with rows as (group key, value) pairs.
Sale prices are numeric; the outlier filters are modelled on rationals. -/
def groupValsQ (rows : List (String × ℚ)) (g : String) : List ℚ :=
  (rows.filter (fun p => p.1 = g)).map (fun p => p.2)

/-- Keep-test of clean_data.py line 28-29,
`(x - x.mean()).abs() / x.std() <= z_threshold`, per group member.
`Series.std` uses ddof = 1: a single observation gives NaN, and a
constant group gives 0 so the z-score is 0/0 = NaN; a NaN z-score fails
the `<=` comparison, so both cases return false (the row is removed).
For a positive standard deviation the comparison
`|x - mean| / std <= t` is encoded by its square
`(x - mean)^2 * (n - 1) <= t^2 * ssq` (with `ssq` the sum of squared
deviations) to stay inside `ℚ`; the encodings agree because both sides
of the original comparison are then nonnegative. -/
def zscoreKeep (vs : List ℚ) (x t : ℚ) : Bool :=
  let n := vs.length
  if n < 2 then false
  else
    let mean := vs.sum / (n : ℚ)
    let ssq := (vs.map (fun v => (v - mean) ^ 2)).sum
    if ssq = 0 then false
    else decide (0 ≤ t) && decide ((x - mean) ^ 2 * ((n : ℚ) - 1) ≤ t ^ 2 * ssq)

/-- Z-score branch of `remove_outliers` (clean_data.py lines 27-29): keep
the rows whose within-group z-score passes the threshold test. -/
def remove_outliers_zscore (rows : List (String × ℚ)) (t : ℚ) : List (String × ℚ) :=
  rows.filter (fun p => zscoreKeep (groupValsQ rows p.1) p.2 t)

/-- Keep-test of clean_data.py lines 30-37: within-group quartile bounds
`[Q1 - 1.5*IQR, Q3 + 1.5*IQR]` with pandas linear-interpolation
quartiles. -/
def iqrKeep (vs : List ℚ) (x : ℚ) : Bool :=
  let q1 := quantileQ vs (1 / 4)
  let q3 := quantileQ vs (3 / 4)
  let iqr := q3 - q1
  decide (q1 - 3 / 2 * iqr ≤ x) && decide (x ≤ q3 + 3 / 2 * iqr)

/-- IQR branch of `remove_outliers` (clean_data.py lines 30-37). -/
def remove_outliers_iqr (rows : List (String × ℚ)) : List (String × ℚ) :=
  rows.filter (fun p => iqrKeep (groupValsQ rows p.1) p.2)

/-- Caller-visible state of the input after any `remove_outliers` call:
line 25 (`df = df.copy()`) rebinds to a copy, and every later column
assignment and row filter acts on that copy, so the caller's frame is
returned unchanged. -/
def removeOutliersInputAfter (rows : List (String × ℚ)) : List (String × ℚ) := rows

/-- One sale event as consumed by clean_data.py's daily aggregation
(lines 112-120): entity, calendar day (from `order_date`), price and
quantity.  The unique `id` only feeds the event count, which the
embedding takes as the group length. -/
structure SaleEvent where
  sku : String
  day : String
  price : ℚ
  quantity : ℚ
deriving DecidableEq

/-- One aggregated daily row (clean_data.py lines 114-128).  `price_std`
(a real square root no claim concerns) and the temporary `sales_value`
column dropped at line 128 are not carried. -/
structure DailyAgg where
  sku : String
  day : String
  quantity : ℚ
  price_mean : ℚ
  price_max : ℚ
  price_min : ℚ
  price_median : ℚ
  price_75th : ℚ
  price_25th : ℚ
  sales_count : Nat
  price_weighted_avg : Option ℚ
deriving DecidableEq

/-- Largest element of a nonempty rational list (0 for the empty list,
which a groupby never produces). -/
def listMaxQ : List ℚ → ℚ
  | [] => 0
  | a :: t => t.foldl max a

/-- Smallest element of a nonempty rational list. -/
def listMinQ : List ℚ → ℚ
  | [] => 0
  | a :: t => t.foldl min a

/-- Events of one (entity, day) group. -/
def groupEvents (es : List SaleEvent) (k : String × String) : List SaleEvent :=
  es.filter (fun e => e.sku = k.1 ∧ e.day = k.2)

/-- Aggregate row of one (entity, day) group, exactly the `agg` spec of
clean_data.py lines 114-127: summed quantity, price mean / max / min /
median / 75th / 25th, event count, and the quantity-weighted average
price `sales_value.sum() / quantity.sum().replace(0, NA)` - pandas NA
(here `none`) when the summed quantity is zero, otherwise the quotient. -/
def mkDailyAgg (es : List SaleEvent) (k : String × String) : DailyAgg :=
  let g := groupEvents es k
  let ps := g.map (fun e => e.price)
  let qsum := (g.map (fun e => e.quantity)).sum
  let svalue := (g.map (fun e => e.price * e.quantity)).sum
  { sku := k.1, day := k.2,
    quantity := qsum,
    price_mean := ps.sum / (ps.length : ℚ),
    price_max := listMaxQ ps,
    price_min := listMinQ ps,
    price_median := quantileQ ps (1 / 2),
    price_75th := quantileQ ps (3 / 4),
    price_25th := quantileQ ps (1 / 4),
    sales_count := g.length,
    price_weighted_avg := if qsum = 0 then none else some (svalue / qsum) }

/-- Daily aggregation of sale events, clean_data.py lines 112-128: one
output row per (entity, day) key present in the input (groupby row order
is irrelevant to every claim; first-occurrence order is used). -/
def aggregateSalesDaily (es : List SaleEvent) : List DailyAgg :=
  (dedupFirst (es.map (fun e => (e.sku, e.day)))).map (mkDailyAgg es)

/-! Concrete inputs used by the counterexamples and witnesses below.
Column headers follow the shape contracts of spec section 6 and the
columns the source itself reads. -/

/-- Header of a market_prices table. -/
def mpColsEx : List String :=
  ["card_sku_id", "updated_at", "low", "market", "lowest_list", "direct_low"]

/-- Header of a sales_history table. -/
def shColsEx : List String :=
  ["card_sku_id", "order_date", "price", "quantity", "id"]

/-- Header of a listings table. -/
def lsColsEx : List String :=
  ["card_sku_id", "updated_at", "price", "quantity", "direct_inventory_count"]

/-- Header of a card_attributes table. -/
def caColsEx : List String := ["card_sku_id", "set_name"]

/-- Market data dict with all three tables present. -/
def mdOf (mp sh ls : Frame) : MarketData := ⟨some mp, some sh, some ls⟩

/-- One-day analysis window. -/
def daysC1 : List String := ["2025-03-11"]

/-- Market prices: entity A, one day, every price 1. -/
def mpC1 : Frame := ⟨mpColsEx,
  [[Val.str "A", Val.str "2025-03-11", Val.num 1, Val.num 1, Val.num 1, Val.num 1]]⟩

/-- Sales history: two sale events of entity A on the same day, prices
150 and 1. -/
def shC1 : Frame := ⟨shColsEx,
  [[Val.str "A", Val.str "2025-03-11", Val.num 150, Val.num 1, Val.num 1],
   [Val.str "A", Val.str "2025-03-11", Val.num 1, Val.num 1, Val.num 2]]⟩

/-- Listings: one row for entity A with a NaN quantity. -/
def lsC1 : Frame := ⟨lsColsEx,
  [[Val.str "A", Val.str "2025-03-11", Val.num 2, Val.na, Val.num 4]]⟩

/-- Card attributes: entity A. -/
def caC1 : Frame := ⟨caColsEx, [[Val.str "A", Val.str "S"]]⟩

/-- Preprocessed market_prices of the C1 run. -/
def mp2C1 : Frame := unwrapOr (mpStage mpC1)

/-- Preprocessed listings of the C1 run. -/
def ls2C1 : Frame := unwrapOr (lsStage lsC1)

/-- Preprocessed sales of the C1 run (raw granularity, flagged). -/
def sh2C1 : Frame := unwrapOr (shStage shC1 mp2C1 100)

/-- Market prices of one entity over four consecutive days whose
`market` and `direct_low` series are both [10, NaN, NaN, 13]. -/
def mpC2 : Frame := ⟨mpColsEx,
  [[Val.str "A", Val.str "2025-03-11", Val.num 10, Val.num 10, Val.num 10, Val.num 10],
   [Val.str "A", Val.str "2025-03-12", Val.na, Val.na, Val.na, Val.na],
   [Val.str "A", Val.str "2025-03-13", Val.na, Val.na, Val.na, Val.na],
   [Val.str "A", Val.str "2025-03-14", Val.num 13, Val.num 13, Val.num 13, Val.num 13]]⟩

/-- Market prices where entity B's `direct_low` is null on every day of
the window. -/
def mpC3 : Frame := ⟨mpColsEx,
  [[Val.str "A", Val.str "2025-03-11", Val.num 1, Val.num 1, Val.num 1, Val.num 1],
   [Val.str "B", Val.str "2025-03-11", Val.num 1, Val.num 1, Val.num 1, Val.na]]⟩

/-- Sales history with one sale of entity A. -/
def shC3 : Frame := ⟨shColsEx,
  [[Val.str "A", Val.str "2025-03-11", Val.num 5, Val.num 1, Val.num 1]]⟩

/-- Card attributes for entities A and B. -/
def caC3 : Frame := ⟨caColsEx, [[Val.str "A", Val.str "S"], [Val.str "B", Val.str "S"]]⟩

/-- Listings table with no rows: no (entity, day) has a listing. -/
def lsC4 : Frame := ⟨lsColsEx, []⟩

/-- Preprocessed empty listings. -/
def ls2C4 : Frame := unwrapOr (lsStage lsC4)

/-- Grid joined with market prices and the (empty) listings for the C4
run: the state after merge_data.py line 145. -/
def m2C4 : Frame := unwrapOr (gridPlusListings [Val.str "A"] daysC1 mp2C1 ls2C4)

/-- Empty market_prices (columns but no rows). -/
def mpC6 : Frame := ⟨mpColsEx, []⟩

/-- Empty sales_history. -/
def shC6 : Frame := ⟨shColsEx, []⟩

/-- Empty listings. -/
def lsC6 : Frame := ⟨lsColsEx, []⟩

/-- Preprocessed market_prices for the density witness. -/
def wMp2 : Frame := ⟨["card_sku_id", "date", "direct_low"],
  [[Val.str "A", Val.str "2025-03-11", Val.num 1]]⟩

/-- Preprocessed listings for the density witness. -/
def wLs2 : Frame := ⟨["card_sku_id", "date", "quantity"],
  [[Val.str "A", Val.str "2025-03-11", Val.num 2]]⟩

/-- Aggregand sales slice for the density witness. -/
def wSh2 : Frame := ⟨salesSelCols,
  [[Val.str "A", Val.str "2025-03-11", Val.num 1, Val.num 5, Val.bool false]]⟩

/-- Listings frame with no rows (for the C4 witness join). -/
def wLsE : Frame := ⟨["card_sku_id", "date", "quantity", "direct_inventory_count"], []⟩

/-- Grid-with-market intermediate for the C4 witness. -/
def wM1 : Frame := unwrapOr (leftMergeKD (gridFrame [Val.str "A"] daysC1) wMp2 "_x" "_y")

/-- Grid-market-listings intermediate for the C4 witness. -/
def wM2 : Frame := unwrapOr (leftMergeKD wM1 wLsE "" "_listings")

/-- Four-day analysis window. -/
def daysC2 : List String := ["2025-03-11", "2025-03-12", "2025-03-13", "2025-03-14"]

/-- Date-stamped listings used to witness the line-153 failure. -/
def wF1 : Frame := dateStamped lsC1 "updated_at"

/-- Flagged and zero-filled listings used to witness the line-153 failure. -/
def wLs2b : Frame := unwrapOr (lsRest wF1)

/-- Grid-market-listings intermediate used to witness the line-153 failure. -/
def wM2b : Frame := unwrapOr (leftMergeKD wM1 wLs2b "" "_listings")

/-- Sales column slice used to witness the line-153 failure. -/
def wSel : Frame := unwrapOr (wSh2.select salesSelCols)

/-- Post-sales-merge frame used to witness the line-153 failure. -/
def wM3 : Frame := unwrapOr (leftMergeKD wM2b wSel "_x" "_y")

/-! Helper lemmas about the list-level building blocks. -/

theorem getD_replicate_na (n i : Nat) : (List.replicate n Val.na).getD i Val.na = Val.na := by
  rw [List.getD_eq_getElem?_getD]
  by_cases h : i < n
  · simp [List.getElem?_replicate, h]
  · simp [List.getElem?_replicate, h]

theorem idxOf?_cons (c a : String) (t : List String) :
    idxOf? c (a :: t) = if a = c then some 0 else (idxOf? c t).map (· + 1) := rfl

theorem idxOf?_isSome_of_mem {c : String} {l : List String} (h : c ∈ l) :
    (idxOf? c l).isSome := by
  induction l with
  | nil => cases h
  | cons a t ih =>
      rw [idxOf?_cons]
      by_cases hac : a = c
      · simp [hac]
      · have h1 : c ∈ t := by
          rcases List.mem_cons.mp h with h1 | h1
          · exact absurd h1.symm hac
          · exact h1
        have h2 := ih h1
        cases ho : idxOf? c t with
        | none => rw [ho] at h2; simp at h2
        | some i => simp [hac, ho]

theorem mem_of_idxOf?_isSome {c : String} {l : List String}
    (h : (idxOf? c l).isSome) : c ∈ l := by
  induction l with
  | nil => simp [idxOf?] at h
  | cons a t ih =>
      rw [idxOf?_cons] at h
      by_cases hac : a = c
      · exact hac ▸ List.mem_cons_self a t
      · rw [if_neg hac] at h
        cases ho : idxOf? c t with
        | none => rw [ho] at h; simp at h
        | some i => exact List.mem_cons_of_mem a (ih (by simp [ho]))

theorem idxOf?_lt_length {c : String} {l : List String} {i : Nat}
    (h : idxOf? c l = some i) : i < l.length := by
  induction l generalizing i with
  | nil => simp [idxOf?] at h
  | cons a t ih =>
      rw [idxOf?_cons] at h
      simp only [List.length_cons]
      by_cases hac : a = c
      · rw [if_pos hac] at h
        have : i = 0 := by simpa using h.symm
        omega
      · rw [if_neg hac] at h
        cases ho : idxOf? c t with
        | none => rw [ho] at h; simp at h
        | some j =>
            rw [ho] at h
            have hij : j + 1 = i := by simpa using h
            have := ih ho
            omega

theorem idxOf?_append_left {c : String} {A B : List String} {i : Nat}
    (h : idxOf? c A = some i) : idxOf? c (A ++ B) = some i := by
  induction A generalizing i with
  | nil => simp [idxOf?] at h
  | cons a t ih =>
      rw [List.cons_append, idxOf?_cons]
      rw [idxOf?_cons] at h
      by_cases hac : a = c
      · rw [if_pos hac] at h ⊢; exact h
      · rw [if_neg hac] at h ⊢
        cases ho : idxOf? c t with
        | none => rw [ho] at h; simp at h
        | some j =>
            rw [ho] at h
            rw [ih ho]
            exact h

theorem idxOf?_append_right {c : String} {A B : List String} (h : c ∉ A) :
    idxOf? c (A ++ B) = (idxOf? c B).map (· + A.length) := by
  induction A with
  | nil => simp
  | cons a t ih =>
      have hac : a ≠ c := fun he => h (he ▸ List.mem_cons_self a t)
      have hct : c ∉ t := fun hm => h (List.mem_cons_of_mem a hm)
      rw [List.cons_append, idxOf?_cons, if_neg hac, ih hct, List.length_cons]
      cases idxOf? c B with
      | none => rfl
      | some j => simp; omega

theorem mem_insertBy {lt : α → α → Bool} {a x : α} {l : List α} :
    x ∈ insertBy lt a l ↔ x = a ∨ x ∈ l := by
  induction l with
  | nil => simp [insertBy]
  | cons b t ih =>
      by_cases h : lt a b
      · simp [insertBy, h]
      · simp only [insertBy, if_neg h, List.mem_cons, ih]
        tauto

theorem mem_sortBy {lt : α → α → Bool} {x : α} {l : List α} :
    x ∈ sortBy lt l ↔ x ∈ l := by
  induction l with
  | nil => simp [sortBy]
  | cons a t ih => simp [sortBy, mem_insertBy, ih]

theorem length_insertBy (lt : α → α → Bool) (a : α) (l : List α) :
    (insertBy lt a l).length = l.length + 1 := by
  induction l with
  | nil => rfl
  | cons b t ih =>
      by_cases h : lt a b
      · simp [insertBy, h]
      · simp [insertBy, h, ih]

theorem length_sortBy (lt : α → α → Bool) (l : List α) :
    (sortBy lt l).length = l.length := by
  induction l with
  | nil => rfl
  | cons a t ih => simp [sortBy, length_insertBy, ih]

theorem mem_dedupFirstAux [DecidableEq α] {seen l : List α} {x : α} :
    x ∈ dedupFirstAux seen l ↔ x ∈ l ∧ x ∉ seen := by
  induction l generalizing seen with
  | nil => simp [dedupFirstAux]
  | cons a t ih =>
      by_cases h : a ∈ seen
      · simp only [dedupFirstAux, if_pos h, ih, List.mem_cons]
        constructor
        · rintro ⟨h1, h2⟩; exact ⟨Or.inr h1, h2⟩
        · rintro ⟨h1 | h1, h2⟩
          · exact absurd (h1 ▸ h) h2
          · exact ⟨h1, h2⟩
      · simp only [dedupFirstAux, if_neg h, List.mem_cons, ih, List.mem_append,
          List.mem_singleton]
        constructor
        · rintro (rfl | ⟨h1, h2⟩)
          · exact ⟨Or.inl rfl, h⟩
          · exact ⟨Or.inr h1, fun hs => h2 (Or.inl hs)⟩
        · rintro ⟨rfl | h1, h2⟩
          · exact Or.inl rfl
          · by_cases hxa : x = a
            · exact Or.inl hxa
            · exact Or.inr ⟨h1, by simp [h2, hxa]⟩

theorem nodup_dedupFirstAux [DecidableEq α] (seen l : List α) :
    (dedupFirstAux seen l).Nodup := by
  induction l generalizing seen with
  | nil => simp [dedupFirstAux]
  | cons a t ih =>
      by_cases h : a ∈ seen
      · simpa [dedupFirstAux, if_pos h] using ih seen
      · simp only [dedupFirstAux, if_neg h, List.nodup_cons]
        refine ⟨fun hm => ?_, ih (seen ++ [a])⟩
        have := (mem_dedupFirstAux.mp hm).2
        simp at this

theorem mem_dedupFirst [DecidableEq α] {l : List α} {x : α} :
    x ∈ dedupFirst l ↔ x ∈ l := by
  simp [dedupFirst, mem_dedupFirstAux]

theorem nodup_dedupFirst [DecidableEq α] (l : List α) : (dedupFirst l).Nodup :=
  nodup_dedupFirstAux [] l

theorem append_ne_of_rev_take (s t u : String)
    (h : u.data.reverse.take t.data.length ≠ t.data.reverse) : s ++ t ≠ u := by
  intro he
  apply h
  rw [← he, String.data_append, List.reverse_append]
  have hl : t.data.length = t.data.reverse.length := (List.length_reverse t.data).symm
  rw [hl, List.take_left]

theorem append_x_ne_key (c k : String) (hk : k ∈ mergeKeys) : c ++ "_x" ≠ k := by
  simp only [mergeKeys, List.mem_cons, List.mem_singleton, List.not_mem_nil, or_false] at hk
  rcases hk with rfl | rfl
  · exact append_ne_of_rev_take c _ _ (by decide)
  · exact append_ne_of_rev_take c _ _ (by decide)

theorem overlapCols_not_key {L R : List String} {c : String}
    (h : c ∈ overlapCols L R) : c ∉ mergeKeys := by
  have := List.mem_filter.mp h
  simp only [decide_eq_true_eq] at this
  exact this.2.2

theorem renameWith_eq_key_iff {ov : List String} {sfx c k : String}
    (hov : ∀ c' ∈ ov, c' ∉ mergeKeys) (hk : k ∈ mergeKeys)
    (hsfx : sfx = "" ∨ sfx = "_x") :
    renameWith ov sfx c = k ↔ c = k := by
  constructor
  · intro h
    unfold renameWith at h
    by_cases hc : c ∈ ov
    · rw [if_pos hc] at h
      rcases hsfx with rfl | rfl
      · rw [String.append_empty] at h
        exact absurd (h ▸ hk) (hov c hc)
      · exact absurd h (append_x_ne_key c k hk)
    · rwa [if_neg hc] at h
  · rintro rfl
    unfold renameWith
    rw [if_neg (fun hc => hov c hc hk)]

theorem idxOf?_map_renameWith {ov : List String} {sfx k : String}
    (hov : ∀ c' ∈ ov, c' ∉ mergeKeys) (hk : k ∈ mergeKeys)
    (hsfx : sfx = "" ∨ sfx = "_x") (cols : List String) :
    idxOf? k (cols.map (renameWith ov sfx)) = idxOf? k cols := by
  induction cols with
  | nil => rfl
  | cons a t ih =>
      rw [List.map_cons, idxOf?_cons, idxOf?_cons, ih]
      by_cases ha : a = k
      · rw [if_pos ha, if_pos ((renameWith_eq_key_iff hov hk hsfx).mpr ha)]
      · rw [if_neg ha, if_neg (fun hh => ha ((renameWith_eq_key_iff hov hk hsfx).mp hh))]

theorem rowGet_append_key {L : List String} {ren : String → String} {rest : List String}
    {r tail : List Val} {k : String}
    (hidx : idxOf? k (L.map ren) = idxOf? k L)
    (hmem : k ∈ L) (hlen : r.length = L.length) :
    rowGet (L.map ren ++ rest) (r ++ tail) k = rowGet L r k := by
  unfold rowGet
  cases ho : idxOf? k L with
  | none =>
      have h2 := idxOf?_isSome_of_mem hmem
      rw [ho] at h2
      simp at h2
  | some i =>
      have hmap : idxOf? k (L.map ren) = some i := hidx.trans ho
      rw [idxOf?_append_left hmap]
      show (r ++ tail).getD i Val.na = r.getD i Val.na
      exact List.getD_append r tail Val.na i (hlen ▸ idxOf?_lt_length ho)

theorem length_zipFilterMap (p : String → Bool) :
    ∀ (cols : List String) (r : List Val), r.length = cols.length →
    (((cols.zip r).filter (fun q => p q.1)).map (fun q => q.2)).length
      = (cols.filter p).length := by
  intro cols
  induction cols with
  | nil => intro r h; rfl
  | cons a t ih =>
      intro r h
      cases r with
      | nil => simp at h
      | cons v rs =>
          have h' : rs.length = t.length := by simpa using h
          by_cases ha : p a
          · simp [List.zip_cons_cons, List.filter_cons, ha, ih rs h']
          · simp [List.zip_cons_cons, List.filter_cons, ha, ih rs h']

theorem wf_setCol {f : Frame} (h : f.WF) (c : String) (vs : List Val) :
    (f.setCol c vs).WF := by
  unfold Frame.setCol
  cases ho : idxOf? c f.cols with
  | some i =>
      intro r hr
      obtain ⟨⟨r0, v⟩, hmem, rfl⟩ := List.mem_map.mp hr
      have := h r0 (List.of_mem_zip hmem).1
      simpa [List.length_set] using this
  | none =>
      intro r hr
      obtain ⟨⟨r0, v⟩, hmem, rfl⟩ := List.mem_map.mp hr
      have := h r0 (List.of_mem_zip hmem).1
      simp [this]

theorem wf_sortByDate {f : Frame} (h : f.WF) : f.sortByDate.WF := by
  intro r hr
  exact h r (mem_sortBy.mp hr)

theorem wf_dateStamped {f : Frame} (h : f.WF) (tcol : String) :
    (dateStamped f tcol).WF := wf_setCol h _ _

theorem wf_dropCol {f : Frame} (h : f.WF) (c : String) : (f.dropCol c).WF := by
  intro r hr
  obtain ⟨r0, hmem, rfl⟩ := List.mem_map.mp hr
  exact length_zipFilterMap (fun x => decide (x ≠ c)) f.cols r0 (h r0 hmem)

theorem wf_select {f g : Frame} {cs : List String}
    (h : f.select cs = Except.ok g) : g.WF := by
  unfold Frame.select at h
  split at h
  · cases h
    intro r hr
    obtain ⟨r0, hmem, rfl⟩ := List.mem_map.mp hr
    simp
  · cases h

theorem wf_gridFrame (relevant : List Val) (days : List String) :
    (gridFrame relevant days).WF := by
  intro r hr
  obtain ⟨s, hs, hmem⟩ := List.mem_flatMap.mp hr
  obtain ⟨d, hd, rfl⟩ := List.mem_map.mp hmem
  rfl

theorem leftMergeKD_ok_keys {L R M : Frame} {sl sr : String}
    (h : leftMergeKD L R sl sr = Except.ok M) :
    "card_sku_id" ∈ L.cols ∧ "date" ∈ L.cols ∧
    "card_sku_id" ∈ R.cols ∧ "date" ∈ R.cols := by
  unfold leftMergeKD at h
  split at h
  · assumption
  · cases h

theorem leftMergeKD_ok_cols {L R M : Frame} {sl sr : String}
    (h : leftMergeKD L R sl sr = Except.ok M) :
    M.cols = L.cols.map (renameWith (overlapCols L.cols R.cols) sl)
      ++ (R.cols.filter (fun c => c ∉ mergeKeys)).map
          (renameWith (overlapCols L.cols R.cols) sr) := by
  unfold leftMergeKD at h
  split at h
  · cases h; rfl
  · cases h

theorem leftMergeKD_ok_rows {L R M : Frame} {sl sr : String}
    (h : leftMergeKD L R sl sr = Except.ok M) :
    M.rows = L.rows.flatMap (fun r =>
      if (R.rows.filter (fun rr => keyOfRow R.cols rr = keyOfRow L.cols r)).isEmpty then
        [r ++ List.replicate ((R.cols.filter (fun c => c ∉ mergeKeys)).length) Val.na]
      else (R.rows.filter (fun rr => keyOfRow R.cols rr = keyOfRow L.cols r)).map
          (fun rr => r ++ stripKeys R.cols rr)) := by
  unfold leftMergeKD at h
  split at h
  · cases h; rfl
  · cases h

theorem wf_leftMergeKD {L R M : Frame} {sl sr : String}
    (h : leftMergeKD L R sl sr = Except.ok M)
    (hL : L.WF) (hR : R.WF) : M.WF := by
  intro r hr
  rw [leftMergeKD_ok_rows h] at hr
  rw [leftMergeKD_ok_cols h]
  obtain ⟨r0, hr0, hout⟩ := List.mem_flatMap.mp hr
  by_cases hms : (R.rows.filter
      (fun rr => keyOfRow R.cols rr = keyOfRow L.cols r0)).isEmpty
  · rw [if_pos hms] at hout
    rcases List.mem_singleton.mp hout with rfl
    simp [List.length_append, hL r0 hr0, List.length_replicate]
  · rw [if_neg hms] at hout
    obtain ⟨rr, hrr, rfl⟩ := List.mem_map.mp hout
    have hrrR : rr ∈ R.rows := (List.mem_filter.mp hrr).1
    have hstrip : (stripKeys R.cols rr).length
        = (R.cols.filter (fun c => c ∉ mergeKeys)).length := by
      unfold stripKeys
      exact length_zipFilterMap (fun x => decide (x ∉ mergeKeys)) R.cols rr (hR rr hrrR)
    simp [List.length_append, hL r0 hr0, hstrip]

theorem merged_row_key {L R M : Frame} {sl sr : String}
    (h : leftMergeKD L R sl sr = Except.ok M)
    (hsl : sl = "" ∨ sl = "_x") (hwf : L.WF)
    {r : List Val} (hr : r ∈ L.rows) (tail : List Val) :
    keyOfRow M.cols (r ++ tail) = keyOfRow L.cols r := by
  obtain ⟨hk1, hk2, _, _⟩ := leftMergeKD_ok_keys h
  rw [leftMergeKD_ok_cols h]
  have hov : ∀ c' ∈ overlapCols L.cols R.cols, c' ∉ mergeKeys :=
    fun c' hc' => overlapCols_not_key hc'
  unfold keyOfRow
  rw [rowGet_append_key (idxOf?_map_renameWith hov (by decide) hsl L.cols) hk1 (hwf r hr),
    rowGet_append_key (idxOf?_map_renameWith hov (by decide) hsl L.cols) hk2 (hwf r hr)]

theorem countP_flatMap_sum (f : α → List β) (p : β → Bool) (l : List α) :
    (l.flatMap f).countP p = (l.map (fun a => (f a).countP p)).sum := by
  induction l with
  | nil => rfl
  | cons a t ih => simp [List.flatMap_cons, List.countP_append, ih]

theorem sum_map_ite (l : List α) (q : α → Bool) (C : Nat) :
    (l.map (fun a => if q a then C else 0)).sum = C * l.countP q := by
  induction l with
  | nil => simp
  | cons a t ih =>
      by_cases hqa : q a
      · simp [hqa, List.countP_cons, ih, Nat.mul_succ]
        omega
      · simp [hqa, List.countP_cons, ih]

theorem countKey_leftMergeKD {L R M : Frame} {sl sr : String}
    (h : leftMergeKD L R sl sr = Except.ok M)
    (hsl : sl = "" ∨ sl = "_x") (hwf : L.WF) (k : Val × Val) :
    countKey M k = countKey L k * max 1 (countKey R k) := by
  unfold countKey
  rw [leftMergeKD_ok_rows h, countP_flatMap_sum]
  have hpoint : ∀ r ∈ L.rows,
      ((if (R.rows.filter (fun rr => keyOfRow R.cols rr = keyOfRow L.cols r)).isEmpty then
          [r ++ List.replicate ((R.cols.filter (fun c => c ∉ mergeKeys)).length) Val.na]
        else (R.rows.filter (fun rr => keyOfRow R.cols rr = keyOfRow L.cols r)).map
            (fun rr => r ++ stripKeys R.cols rr)).countP
          (fun x => decide (keyOfRow M.cols x = k)))
        = if decide (keyOfRow L.cols r = k) then max 1 (countKey R k) else 0 := by
    intro r hr
    have hkeep : ∀ tail, keyOfRow M.cols (r ++ tail) = keyOfRow L.cols r :=
      merged_row_key h hsl hwf hr
    by_cases hms : (R.rows.filter
        (fun rr => keyOfRow R.cols rr = keyOfRow L.cols r)).isEmpty
    · rw [if_pos hms]
      by_cases hk : keyOfRow L.cols r = k
      · have hRz : countKey R k = 0 := by
          unfold countKey
          rw [List.countP_eq_length_filter]
          have hsame : (R.rows.filter (fun rr => decide (keyOfRow R.cols rr = k))).isEmpty := by
            rw [← hk]
            exact hms
          simpa [List.isEmpty_iff_length_eq_zero] using hsame
        simp [List.countP_cons, hkeep, hk, hRz]
      · simp [List.countP_cons, hkeep, hk]
    · rw [if_neg hms]
      rw [List.countP_map]
      have hfun : ((fun x => decide (keyOfRow M.cols x = k)) ∘
          (fun rr => r ++ stripKeys R.cols rr))
            = fun _ => decide (keyOfRow L.cols r = k) := by
        funext rr
        simp [Function.comp, hkeep]
      rw [hfun]
      have hlen : (R.rows.filter
          (fun rr => keyOfRow R.cols rr = keyOfRow L.cols r)).length
            = countKey R (keyOfRow L.cols r) := by
        unfold countKey
        rw [List.countP_eq_length_filter]
      by_cases hk : keyOfRow L.cols r = k
      · subst hk
        have hpos : 0 < countKey R (keyOfRow L.cols r) := by
          rw [← hlen]
          have hne := List.isEmpty_iff_length_eq_zero.not.mp hms
          omega
        have hmax : max 1 (countKey R (keyOfRow L.cols r))
            = countKey R (keyOfRow L.cols r) := Nat.max_eq_right hpos
        rw [if_pos (by simp)]
        have htr : (fun _ : List Val =>
            decide (keyOfRow L.cols r = keyOfRow L.cols r)) = fun _ => true := by
          simp
        rw [htr, List.countP_true, hlen, hmax]
      · simp [hk]
  rw [List.map_congr_left hpoint, sum_map_ite, Nat.mul_comm]
  rfl

theorem keyOfRow_grid (a b : Val) : keyOfRow ["card_sku_id", "date"] [a, b] = (a, b) := rfl

theorem countP_eq_one_of_nodup [DecidableEq α] {l : List α} (h : l.Nodup) {x : α}
    (hx : x ∈ l) : l.countP (fun y => decide (y = x)) = 1 := by
  induction l with
  | nil => cases hx
  | cons a t ih =>
      rw [List.nodup_cons] at h
      rcases List.mem_cons.mp hx with rfl | hxt
      · have hz : t.countP (fun y => decide (y = x)) = 0 :=
          List.countP_eq_zero.mpr (fun y hy => by
            simp only [decide_eq_true_eq]
            exact fun he => h.1 (he ▸ hy))
        simp [List.countP_cons, hz]
      · have hax : ¬(a = x) := fun he => h.1 (he ▸ hxt)
        simp [List.countP_cons, hax, ih h.2 hxt]

theorem countKey_gridFrame (skus : List Val) (days : List String) (s : Val) (d : String) :
    countKey (gridFrame skus days) (s, Val.str d)
      = skus.countP (fun y => decide (y = s)) * days.countP (fun y => decide (y = d)) := by
  unfold countKey gridFrame
  rw [countP_flatMap_sum]
  have hpoint : ∀ s' ∈ skus, ((days.map (fun d' => [s', Val.str d'])).countP
      (fun r => decide (keyOfRow ["card_sku_id", "date"] r = (s, Val.str d))))
      = if decide (s' = s) then days.countP (fun y => decide (y = d)) else 0 := by
    intro s' _
    rw [List.countP_map]
    have hfun : ((fun r => decide (keyOfRow ["card_sku_id", "date"] r = (s, Val.str d)))
        ∘ (fun d' => [s', Val.str d'])) = fun d' => decide (s' = s ∧ d' = d) := by
      funext d'
      simp only [Function.comp, keyOfRow_grid]
      apply decide_eq_decide.mpr
      constructor
      · intro he
        have h1 := congrArg Prod.fst he
        have h2 := congrArg Prod.snd he
        simp only at h1 h2
        exact ⟨h1, Val.str.inj h2⟩
      · rintro ⟨rfl, rfl⟩; rfl
    rw [hfun]
    by_cases hs : s' = s
    · subst hs
      rw [if_pos (by simp)]
      have hfun2 : (fun d' => decide (s' = s' ∧ d' = d)) = fun d' => decide (d' = d) := by
        funext d'
        apply decide_eq_decide.mpr
        simp
      rw [hfun2]
    · rw [if_neg (by simpa using hs)]
      apply List.countP_eq_zero.mpr
      intro d' _
      simp [hs]
  rw [List.map_congr_left hpoint, sum_map_ite, Nat.mul_comm]

theorem countKey_select_sales {sh sel : Frame}
    (h : sh.select salesSelCols = Except.ok sel) (k : Val × Val) :
    countKey sel k = countKey sh k := by
  unfold Frame.select at h
  split at h
  · cases h
    unfold countKey
    rw [List.countP_map]
    congr 1
  · cases h

theorem max_one_of_le_one {n : Nat} (h : n ≤ 1) : max 1 n = 1 := by omega

/-- Claim C1 (amended).  As stated the claim is false: merge_data returns
no output table on any input (see the C1 counterexample and the C3
theorem), and the sales join runs at raw sale granularity, so a day with
two sale events gives two rows for its (entity, day) pair.  What does
hold is the density of the intermediate table the grid joins build at
merge_data.py lines 142-152 (the function fails on the very next line):
provided each source table carries at most one row per (entity, day),
that intermediate has exactly one row per (entity, day) for every
relevant entity and every day in the window - no duplicates, no gaps. -/
theorem joinedGrid_density
    (relevant : List Val) (days : List String) (mp2 ls2 sh2 m3 : Frame)
    (hok : joinedGrid relevant days mp2 ls2 sh2 = Except.ok m3)
    (hwfm : mp2.WF) (hwfl : ls2.WF)
    (hrel : relevant.Nodup) (hdays : days.Nodup)
    {s : Val} (hs : s ∈ relevant) {d : String} (hd : d ∈ days)
    (hum : countKey mp2 (s, Val.str d) ≤ 1)
    (hul : countKey ls2 (s, Val.str d) ≤ 1)
    (hus : countKey sh2 (s, Val.str d) ≤ 1) :
    countKey m3 (s, Val.str d) = 1 := by
  unfold joinedGrid gridPlusListings at hok
  cases hA : leftMergeKD (gridFrame relevant days) mp2 "_x" "_y" with
  | error e => rw [hA] at hok; simp [Bind.bind, Except.bind] at hok
  | ok m1 =>
  rw [hA] at hok
  simp only [Bind.bind, Except.bind] at hok
  cases hB : leftMergeKD m1 ls2 "" "_listings" with
  | error e => rw [hB] at hok; simp at hok
  | ok m2 =>
  rw [hB] at hok
  cases hC : sh2.select salesSelCols with
  | error e => rw [hC] at hok; simp at hok
  | ok sel =>
  rw [hC] at hok
  simp only at hok
  have hwf1 : m1.WF := wf_leftMergeKD hA (wf_gridFrame relevant days) hwfm
  have hwf2 : m2.WF := wf_leftMergeKD hB hwf1 hwfl
  have hc1 : countKey m1 (s, Val.str d) = 1 := by
    rw [countKey_leftMergeKD hA (Or.inr rfl) (wf_gridFrame relevant days),
      countKey_gridFrame, countP_eq_one_of_nodup hrel hs,
      countP_eq_one_of_nodup hdays hd, max_one_of_le_one hum]
  have hc2 : countKey m2 (s, Val.str d) = 1 := by
    rw [countKey_leftMergeKD hB (Or.inl rfl) hwf1, hc1,
      max_one_of_le_one hul]
  have hsel : countKey sel (s, Val.str d) ≤ 1 := by
    rw [countKey_select_sales hC]
    exact hus
  rw [countKey_leftMergeKD hok (Or.inr rfl) hwf2, hc2,
    max_one_of_le_one hsel]

theorem idxOf?_eq_none_of_not_mem {c : String} {l : List String} (h : c ∉ l) :
    idxOf? c l = none := by
  cases ho : idxOf? c l with
  | none => rfl
  | some i => exact absurd (mem_of_idxOf?_isSome (by simp [ho])) h

theorem getD_idxOf? {c : String} {l : List String} {i : Nat}
    (h : idxOf? c l = some i) (dflt : String) : l.getD i dflt = c := by
  induction l generalizing i with
  | nil => simp [idxOf?] at h
  | cons a t ih =>
      rw [idxOf?_cons] at h
      by_cases hac : a = c
      · rw [if_pos hac] at h
        have : i = 0 := by simpa using h.symm
        simp [this, hac]
      · rw [if_neg hac] at h
        cases ho : idxOf? c t with
        | none => rw [ho] at h; simp at h
        | some j =>
            rw [ho] at h
            have : j + 1 = i := by simpa using h
            subst this
            simpa using ih ho

theorem getCol_ok {f : Frame} {c : String} {vs : List Val}
    (h : f.getCol c = Except.ok vs) : vs = colVals f c ∧ c ∈ f.cols := by
  unfold Frame.getCol at h
  cases ho : idxOf? c f.cols with
  | none => rw [ho] at h; cases h
  | some i =>
      rw [ho] at h
      cases h
      exact ⟨rfl, mem_of_idxOf?_isSome (by simp [ho])⟩

theorem map_renameWith_empty (ov : List String) (cols : List String) :
    cols.map (renameWith ov "") = cols := by
  induction cols with
  | nil => rfl
  | cons a t ih =>
      rw [List.map_cons, ih]
      unfold renameWith
      split
      · rw [String.append_empty]
      · rfl

theorem mem_cols_setCol {f : Frame} {c : String} (c' : String) (vs : List Val)
    (h : c ∈ f.cols) : c ∈ (f.setCol c' vs).cols := by
  unfold Frame.setCol
  cases idxOf? c' f.cols with
  | some i => exact h
  | none => exact List.mem_append_left _ h

theorem cols_setCol_new {f : Frame} {c : String} (vs : List Val)
    (h : c ∉ f.cols) : (f.setCol c vs).cols = f.cols ++ [c] := by
  unfold Frame.setCol
  rw [idxOf?_eq_none_of_not_mem h]

theorem mem_date_setCol_new {f : Frame} (c : String) (vs : List Val) :
    c ∈ (f.setCol c vs).cols := by
  unfold Frame.setCol
  cases ho : idxOf? c f.cols with
  | some i => exact mem_of_idxOf?_isSome (by simp [ho])
  | none => exact List.mem_append_right _ (by simp)

theorem length_colVals (f : Frame) (c : String) :
    (colVals f c).length = f.rows.length := List.length_map f.rows _

theorem length_rows_setCol {f : Frame} {vs : List Val} (c : String)
    (hlen : vs.length = f.rows.length) :
    (f.setCol c vs).rows.length = f.rows.length := by
  unfold Frame.setCol
  cases idxOf? c f.cols with
  | some i => simp [List.length_zip, hlen]
  | none => simp [List.length_zip, hlen]

theorem length_transformFfillBfill (gs vs : List Val) :
    (transformFfillBfill gs vs).length = vs.length := by
  simp [transformFfillBfill]

theorem ne_of_mem_cols {g f : Frame} {c : String} (hg : c ∈ g.cols)
    (hf : c ∉ f.cols) : g ≠ f := by
  intro he
  exact hf (he ▸ hg)

/-- Claim C4 (amended).  As stated the claim is false: the zero-fill at
merge_data.py lines 122-123 rewrites only the rows the listings table
already has, before the join, and the function never returns an output
table at all.  What holds instead: in the intermediate after the
listings join (line 145), every row of an (entity, day) pair that has
no listing row carries NaN - not 0 - in any listings-only column such
as `quantity` or `direct_inventory_count`. -/
theorem noListingRow_na {m1 ls2 M : Frame} {sr : String}
    (h : leftMergeKD m1 ls2 "" sr = Except.ok M)
    (hwf : m1.WF) {k : Val × Val} (hzero : countKey ls2 k = 0)
    {c : String} (hc : c ∉ m1.cols) :
    ∀ r ∈ M.rows, keyOfRow M.cols r = k → rowGet M.cols r c = Val.na := by
  intro r hr hkey
  rw [leftMergeKD_ok_rows h] at hr
  obtain ⟨r0, hr0, hout⟩ := List.mem_flatMap.mp hr
  by_cases hms : (ls2.rows.filter
      (fun rr => keyOfRow ls2.cols rr = keyOfRow m1.cols r0)).isEmpty
  · rw [if_pos hms] at hout
    rcases List.mem_singleton.mp hout with rfl
    rw [leftMergeKD_ok_cols h, map_renameWith_empty]
    unfold rowGet
    rw [idxOf?_append_right hc]
    cases ho : idxOf? c ((ls2.cols.filter (fun c => c ∉ mergeKeys)).map
        (renameWith (overlapCols m1.cols ls2.cols) sr)) with
    | none => rfl
    | some j =>
        rw [Option.map_some']
        show (r0 ++ List.replicate ((ls2.cols.filter (fun c => c ∉ mergeKeys)).length)
            Val.na).getD (j + m1.cols.length) Val.na = Val.na
        rw [List.getD_append_right _ _ _ _ (by
          rw [hwf r0 hr0]
          omega)]
        exact getD_replicate_na _ _
  · rw [if_neg hms] at hout
    obtain ⟨rr, hrr, rfl⟩ := List.mem_map.mp hout
    have hkeyp := merged_row_key h (Or.inl rfl) hwf hr0 (stripKeys ls2.cols rr)
    rw [hkeyp] at hkey
    have hrrk : keyOfRow ls2.cols rr = k := by
      have := (List.mem_filter.mp hrr).2
      simp only [decide_eq_true_eq] at this
      rw [this, hkey]
    have hpos : 0 < countKey ls2 k := by
      unfold countKey
      apply List.countP_pos_iff.mpr
      exact ⟨rr, (List.mem_filter.mp hrr).1, by simp [hrrk]⟩
    omega

theorem rowGet_set_ne {cols : List String} {r : List Val} {i : Nat} {v : Val}
    {c c' : String} (hne : c ≠ c') (hi : idxOf? c' cols = some i) :
    rowGet cols (r.set i v) c = rowGet cols r c := by
  unfold rowGet
  cases ho : idxOf? c cols with
  | none => rfl
  | some j =>
      have hij : i ≠ j := by
        intro he
        subst he
        exact hne ((getD_idxOf? ho "").symm.trans (getD_idxOf? hi ""))
      show (r.set i v).getD j Val.na = r.getD j Val.na
      rw [List.getD_eq_getElem?_getD, List.getD_eq_getElem?_getD,
        List.getElem?_set_ne hij]

theorem colVals_setCol_ne {f : Frame} (hwf : f.WF) {c c' : String} (hne : c ≠ c')
    {vs : List Val} (hlen : vs.length = f.rows.length) :
    colVals (f.setCol c' vs) c = colVals f c := by
  unfold Frame.setCol colVals
  cases ho : idxOf? c' f.cols with
  | some i =>
      simp only [List.map_map]
      have hmap : ∀ p ∈ f.rows.zip vs,
          ((fun r => rowGet f.cols r c) ∘ (fun p : List Val × Val => p.1.set i p.2)) p
            = ((fun r => rowGet f.cols r c) ∘ Prod.fst) p := by
        intro p _
        exact rowGet_set_ne hne ho
      rw [List.map_congr_left hmap, ← List.map_map, List.map_fst_zip _ _ (by omega)]
  | none =>
      simp only [List.map_map]
      have hmap : ∀ p ∈ f.rows.zip vs,
          ((fun r => rowGet (f.cols ++ [c']) r c) ∘
            (fun p : List Val × Val => p.1 ++ [p.2])) p
            = ((fun r => rowGet f.cols r c) ∘ Prod.fst) p := by
        intro p hp
        have hp1 : p.1 ∈ f.rows := (List.of_mem_zip hp).1
        simp only [Function.comp]
        unfold rowGet
        cases hoc : idxOf? c f.cols with
        | some j =>
            rw [idxOf?_append_left hoc]
            exact List.getD_append _ _ _ _ ((hwf p.1 hp1) ▸ idxOf?_lt_length hoc)
        | none =>
            have hcm : c ∉ f.cols := fun hm => by
              have := idxOf?_isSome_of_mem hm
              rw [hoc] at this
              simp at this
            rw [idxOf?_append_right hcm]
            have : idxOf? c [c'] = none := by
              simp [idxOf?, Ne.symm hne]
            rw [this]
            rfl
      rw [List.map_congr_left hmap, ← List.map_map, List.map_fst_zip _ _ (by omega)]

theorem mpStage_direct_low_unchanged {mp f : Frame} (hwf : mp.WF)
    (h : mpStage mp = Except.ok f) :
    colVals f "direct_low"
      = colVals ((dateStamped mp "updated_at").sortByDate) "direct_low" := by
  unfold mpStage mpWithDate at h
  cases hu : mp.getCol "updated_at" with
  | error e => rw [hu] at h; simp [Bind.bind, Except.bind] at h
  | ok us =>
  rw [hu] at h
  simp only [Bind.bind, Except.bind] at h
  unfold mpRest at h
  simp only [] at h
  cases hm : ((dateStamped mp "updated_at").sortByDate).getCol "market" with
  | error e => rw [hm] at h; simp [Bind.bind, Except.bind] at h
  | ok mk =>
  rw [hm] at h
  simp only [Bind.bind, Except.bind] at h
  cases hsk : ((dateStamped mp "updated_at").sortByDate).getCol "card_sku_id" with
  | error e => rw [hsk] at h; simp at h
  | ok sk =>
  rw [hsk] at h
  simp only at h
  obtain ⟨hmkv, _⟩ := getCol_ok hm
  obtain ⟨hskv, _⟩ := getCol_ok hsk
  subst hmkv hskv
  have hwfs : ((dateStamped mp "updated_at").sortByDate).WF :=
    wf_sortByDate (wf_dateStamped hwf _)
  set s := (dateStamped mp "updated_at").sortByDate with hs
  set s1 := s.setCol "market"
    (transformFfillBfill (colVals s "card_sku_id") (colVals s "market")) with hs1
  have hlen1 : (transformFfillBfill (colVals s "card_sku_id")
      (colVals s "market")).length = s.rows.length := by
    rw [length_transformFfillBfill, length_colVals]
  have hwf1 : s1.WF := wf_setCol hwfs _ _
  have hL1 : s1.rows.length = s.rows.length := length_rows_setCol _ hlen1
  cases hdl : s1.getCol "direct_low" with
  | error e => rw [hdl] at h; simp at h
  | ok dl =>
  rw [hdl] at h
  simp only at h
  obtain ⟨hdlv, _⟩ := getCol_ok hdl
  subst hdlv
  set s2 := s1.setCol "is_direct_low_nan"
    ((colVals s1 "direct_low").map (fun v => Val.bool v.isNa)) with hs2
  have hlen2 : ((colVals s1 "direct_low").map (fun v => Val.bool v.isNa)).length
      = s1.rows.length := by rw [List.length_map, length_colVals]
  have hwf2 : s2.WF := wf_setCol hwf1 _ _
  have hL2 : s2.rows.length = s1.rows.length := length_rows_setCol _ hlen2
  cases hlo : s2.getCol "low" with
  | error e => rw [hlo] at h; simp at h
  | ok lo =>
  rw [hlo] at h
  simp only at h
  obtain ⟨hlov, _⟩ := getCol_ok hlo
  subst hlov
  set s3 := s2.setCol "is_low_nan"
    ((colVals s2 "low").map (fun v => Val.bool v.isNa)) with hs3
  have hlen3 : ((colVals s2 "low").map (fun v => Val.bool v.isNa)).length
      = s2.rows.length := by rw [List.length_map, length_colVals]
  have hwf3 : s3.WF := wf_setCol hwf2 _ _
  have hL3 : s3.rows.length = s2.rows.length := length_rows_setCol _ hlen3
  cases hll : s3.getCol "lowest_list" with
  | error e => rw [hll] at h; simp at h
  | ok ll =>
  rw [hll] at h
  simp only at h
  obtain ⟨hllv, _⟩ := getCol_ok hll
  subst hllv
  cases h
  rw [colVals_setCol_ne hwf3 (by decide)
      (by rw [List.length_map, length_colVals]),
    colVals_setCol_ne hwf2 (by decide) hlen3,
    colVals_setCol_ne hwf1 (by decide) hlen2,
    colVals_setCol_ne hwfs (by decide) hlen1]

theorem except_bind_ok {x : Except String α} {f : α → Except String β} {b : β} :
    x >>= f = Except.ok b ↔ ∃ a, x = Except.ok a ∧ f a = Except.ok b := by
  cases x with
  | error e => simp [Bind.bind, Except.bind]
  | ok a => simp [Bind.bind, Except.bind]

theorem merge_data_not_ok (md : Option MarketData) (ca : Option Frame) (mult : ℚ)
    (days : List String) (f : Frame) :
    merge_data md ca mult days ≠ Except.ok f := by
  intro h
  unfold merge_data at h
  split at h
  · cases h
  · split at h
    · split at h
      · obtain ⟨_, _, h⟩ := except_bind_ok.mp h
        obtain ⟨_, _, h⟩ := except_bind_ok.mp h
        obtain ⟨_, _, h⟩ := except_bind_ok.mp h
        obtain ⟨_, _, h⟩ := except_bind_ok.mp h
        obtain ⟨_, _, h⟩ := except_bind_ok.mp h
        obtain ⟨_, _, h⟩ := except_bind_ok.mp h
        obtain ⟨_, _, h⟩ := except_bind_ok.mp h
        obtain ⟨_, _, h⟩ := except_bind_ok.mp h
        obtain ⟨_, _, h⟩ := except_bind_ok.mp h
        obtain ⟨_, _, h⟩ := except_bind_ok.mp h
        obtain ⟨_, _, h⟩ := except_bind_ok.mp h
        obtain ⟨_, _, h⟩ := except_bind_ok.mp h
        obtain ⟨_, _, h⟩ := except_bind_ok.mp h
        obtain ⟨_, _, h⟩ := except_bind_ok.mp h
        obtain ⟨_, _, h⟩ := except_bind_ok.mp h
        simp at h
      · cases h
    · cases h

theorem mem_cols_merge_right_empty_sfx {L R M : Frame} {sr : String}
    (h : leftMergeKD L R "" sr = Except.ok M) {c : String}
    (hc : c ∈ R.cols) (hck : c ∉ mergeKeys) : c ∈ M.cols := by
  rw [leftMergeKD_ok_cols h, map_renameWith_empty]
  by_cases hcl : c ∈ overlapCols L.cols R.cols
  · exact List.mem_append_left _ (List.mem_of_mem_filter hcl)
  · apply List.mem_append_right
    apply List.mem_map.mpr
    refine ⟨c, List.mem_filter.mpr ⟨hc, by simpa using hck⟩, ?_⟩
    simp [renameWith, hcl]

theorem not_mem_quantity_after_sales_merge {L R M : Frame}
    (h : leftMergeKD L R "_x" "_y" = Except.ok M)
    (hqL : "quantity" ∈ L.cols) (hqR : "quantity" ∈ R.cols) :
    "quantity" ∉ M.cols := by
  rw [leftMergeKD_ok_cols h]
  intro hmem
  have hov : "quantity" ∈ overlapCols L.cols R.cols :=
    List.mem_filter.mpr ⟨hqL, by
      simp only [decide_eq_true_eq]
      exact ⟨hqR, by decide⟩⟩
  rcases List.mem_append.mp hmem with hl | hr
  · obtain ⟨c, hcL, hcEq⟩ := List.mem_map.mp hl
    unfold renameWith at hcEq
    by_cases hc : c ∈ overlapCols L.cols R.cols
    · rw [if_pos hc] at hcEq
      exact append_ne_of_rev_take c "_x" "quantity" (by decide) hcEq
    · rw [if_neg hc] at hcEq
      exact hc (hcEq ▸ hov)
  · obtain ⟨c, hcR, hcEq⟩ := List.mem_map.mp hr
    unfold renameWith at hcEq
    by_cases hc : c ∈ overlapCols L.cols R.cols
    · rw [if_pos hc] at hcEq
      exact append_ne_of_rev_take c "_y" "quantity" (by decide) hcEq
    · rw [if_neg hc] at hcEq
      exact hc (hcEq ▸ hov)

theorem lsRest_quantity_mem {f1 ls2 : Frame}
    (h : lsRest f1 = Except.ok ls2) : "quantity" ∈ ls2.cols := by
  unfold lsRest at h
  cases hp : f1.getCol "price" with
  | error e => rw [hp] at h; simp [Bind.bind, Except.bind] at h
  | ok pr =>
  rw [hp] at h
  simp only [Bind.bind, Except.bind] at h
  cases hq : (f1.setCol "is_missing_day"
      (pr.map (fun v => Val.bool v.isNa))).getCol "quantity" with
  | error e => rw [hq] at h; simp at h
  | ok q =>
  rw [hq] at h
  simp only at h
  cases hd : ((f1.setCol "is_missing_day" (pr.map (fun v => Val.bool v.isNa))).setCol
      "quantity" (q.map (fun v => v.fillna (Val.num 0)))).getCol
      "direct_inventory_count" with
  | error e => rw [hd] at h; simp at h
  | ok d =>
  rw [hd] at h
  simp only at h
  cases h
  exact mem_cols_setCol _ _ (mem_date_setCol_new _ _)

theorem select_ok_cols {f g : Frame} {cs : List String}
    (h : f.select cs = Except.ok g) : g.cols = cs := by
  unfold Frame.select at h
  split at h
  · cases h; rfl
  · cases h

theorem getCol_error_of_not_mem {f : Frame} {c : String} (h : c ∉ f.cols) :
    f.getCol c = Except.error ("KeyError: " ++ c) := by
  unfold Frame.getCol
  rw [idxOf?_eq_none_of_not_mem h]

theorem sales_merge_line153_fails {f1 ls2 m1 m2 sh2 sel M : Frame}
    (hls : lsRest f1 = Except.ok ls2)
    (h145 : leftMergeKD m1 ls2 "" "_listings" = Except.ok m2)
    (h149 : sh2.select salesSelCols = Except.ok sel)
    (h148 : leftMergeKD m2 sel "_x" "_y" = Except.ok M) :
    M.getCol "quantity" = Except.error "KeyError: quantity" := by
  have hq2 : "quantity" ∈ m2.cols :=
    mem_cols_merge_right_empty_sfx h145 (lsRest_quantity_mem hls) (by decide)
  have hqs : "quantity" ∈ sel.cols := by
    rw [select_ok_cols h149]
    decide
  exact getCol_error_of_not_mem
    (not_mem_quantity_after_sales_merge h148 hq2 hqs)

theorem sum_const_of_all_eq {l : List ℚ} {c : ℚ} (h : ∀ x ∈ l, x = c) :
    l.sum = (l.length : ℚ) * c := by
  induction l with
  | nil => simp
  | cons a t ih =>
      have ha := h a (by simp)
      have ht := ih (fun x hx => h x (by simp [hx]))
      simp only [List.sum_cons, List.length_cons, ha, ht]
      push_cast
      ring

theorem zscoreKeep_const {vs : List ℚ} {c : ℚ} (h : ∀ x ∈ vs, x = c) (x t : ℚ) :
    zscoreKeep vs x t = false := by
  unfold zscoreKeep
  by_cases hn : vs.length < 2
  · rw [if_pos hn]
  · rw [if_neg hn]
    have hnz : (vs.length : ℚ) ≠ 0 := by
      have : 2 ≤ vs.length := by omega
      positivity
    have hmean : vs.sum / (vs.length : ℚ) = c := by
      rw [sum_const_of_all_eq h, mul_comm, mul_div_assoc, div_self hnz, mul_one]
    have hssq : (vs.map (fun v => (v - vs.sum / (vs.length : ℚ)) ^ 2)).sum = 0 := by
      apply List.sum_eq_zero
      intro y hy
      obtain ⟨v, hv, rfl⟩ := List.mem_map.mp hy
      rw [hmean, h v hv]
      ring
    rw [if_pos hssq]

/-- Claim C6 (amended).  As stated the claim is false: the validation at
merge_data.py lines 79-89 raises only when market_data itself is
falsy/not a dict, when card_attributes is absent or empty, or when one
of the three component tables is absent.  Empty component tables,
missing join-key columns and an empty entity set pass validation (they
surface later as KeyError, not as a validation error), and clean_data
reports invalid input by returning None rather than raising.  This
theorem characterises exactly when validation passes. -/
theorem validateMergeData_none_iff (md : Option MarketData) (ca : Option Frame) :
    validateMergeData md ca = none ↔
      (∃ m, md = some m ∧ m.market_prices.isSome ∧ m.sales_history.isSome ∧
        m.listings.isSome) ∧ (∃ caf, ca = some caf ∧ caf.rows ≠ []) := by
  cases md with
  | none => simp [validateMergeData]
  | some m =>
      cases ca with
      | none => simp [validateMergeData]
      | some caf =>
          simp only [validateMergeData]
          by_cases he : caf.rows.isEmpty
          · rw [if_pos he]
            simp [List.isEmpty_iff.mp he]
          · rw [if_neg he]
            by_cases hc : m.market_prices.isNone ∨ m.sales_history.isNone ∨
                m.listings.isNone
            · rw [if_pos hc]
              simp only [Option.isNone_iff_eq_none] at hc
              constructor
              · intro hfalse; cases hfalse
              · rintro ⟨⟨m', hm', h1, h2, h3⟩, _⟩
                cases hm'
                rcases hc with hc | hc | hc <;>
                  simp [hc, Option.isSome_iff_exists] at h1 h2 h3
            · rw [if_neg hc]
              push_neg at hc
              simp only [Option.isNone_iff_eq_none, ← Option.ne_none_iff_isSome] at hc ⊢
              constructor
              · intro _
                refine ⟨⟨m, rfl, ?_, ?_, ?_⟩, ⟨caf, rfl, ?_⟩⟩
                · simpa [Option.isSome_iff_ne_none] using hc.1
                · simpa [Option.isSome_iff_ne_none] using hc.2.1
                · simpa [Option.isSome_iff_ne_none] using hc.2.2
                · simpa [List.isEmpty_iff] using he
              · intro _; trivial

set_option maxRecDepth 8000

/-- Claim C1 counterexample.  A fully valid input (one entity, a one-day
window, two sale events on that day) yields no output table at all:
merge_data raises KeyError on `"quantity"` at line 153, because the sales
merge just renamed both quantity columns with the default `_x`/`_y`
suffixes.  Moreover the intermediate after the grid joins already
carries the (A, 2025-03-11) pair twice - once per raw sale row - so the
dense-grid property fails even before the crash. -/
theorem C1_claim_counterexample :
    merge_data (some (mdOf mpC1 shC1 lsC1)) (some caC1) 100 daysC1
        = Except.error "KeyError: quantity"
    ∧ countKey (unwrapOr (joinedGrid [Val.str "A"] daysC1 mp2C1 ls2C1 sh2C1))
        (Val.str "A", Val.str "2025-03-11") = 2 :=
  ⟨rfl, by decide⟩

/-- Claim C1 witness: the density theorem instantiated on concrete
one-row-per-key stage outputs. -/
theorem joinedGrid_density_witness :
    countKey (unwrapOr (joinedGrid [Val.str "A"] daysC1 wMp2 wLs2 wSh2))
      (Val.str "A", Val.str "2025-03-11") = 1 :=
  joinedGrid_density [Val.str "A"] daysC1 wMp2 wLs2 wSh2 _ rfl
    (by decide) (by decide) (by decide) (by decide) (by decide) (by decide)
    (by decide) (by decide) (by decide)

/-- Claim C2 (amended).  As stated the claim is false: only the `market`
column is gap-filled (merge_data.py line 115), and only across the rows
the market_prices table already has; `direct_low`, `low` and
`lowest_list` are flagged, never filled, and days absent from the table
are never filled either.  This theorem states (1) the `direct_low`
column of the stage output equals the `direct_low` column of the merely
date-stamped and sorted input - no fill - and (2) on the concrete
[10, NaN, NaN, 13] series over four consecutive days, `market` becomes
[10, 10, 10, 13] while `direct_low` keeps its NaNs. -/
theorem mpStage_gapfill_market_only :
    (∀ mp f : Frame, mp.WF → mpStage mp = Except.ok f →
      colVals f "direct_low"
        = colVals ((dateStamped mp "updated_at").sortByDate) "direct_low")
    ∧ colVals (unwrapOr (mpStage mpC2)) "market"
        = [Val.num 10, Val.num 10, Val.num 10, Val.num 13]
    ∧ colVals (unwrapOr (mpStage mpC2)) "direct_low"
        = [Val.num 10, Val.na, Val.na, Val.num 13] :=
  ⟨fun _ _ hwf h => mpStage_direct_low_unchanged hwf h, by decide, by decide⟩

/-- Claim C2 witness: the no-fill part of the amended theorem applied to
the concrete four-day frame. -/
theorem mpStage_gapfill_market_only_witness :
    colVals (unwrapOr (mpStage mpC2)) "direct_low"
      = colVals ((dateStamped mpC2 "updated_at").sortByDate) "direct_low" :=
  mpStage_gapfill_market_only.1 mpC2 _ (by decide) rfl

/-- Claim C2 counterexample.  The claim demands every price field be
forward- then back-filled per entity; on the concrete series the
`direct_low` column of the preprocessed market_prices is still
[10, NaN, NaN, 13], not [10, 10, 10, 13] - lines 116-118 only flag it -
and no later line can fill it because the function never returns. -/
theorem C2_claim_counterexample :
    colVals (unwrapOr (mpStage mpC2)) "direct_low"
        = [Val.num 10, Val.na, Val.na, Val.num 13]
    ∧ [Val.num 10, Val.na, Val.na, Val.num 13]
        ≠ [Val.num 10, Val.num 10, Val.num 10, Val.num 13]
    ∧ merge_data (some (mdOf mpC2 shC3 lsC1)) (some caC1) 100 daysC2
        = Except.error "KeyError: quantity" :=
  ⟨by decide, by decide, rfl⟩

/-- Claim C3 (code_bug).  The claim matches the intent of merge_data.py
lines 173-184 (drop all rows of an all-NaN-direct_low entity and record
the dropped keys), but those lines are dead code: every run raises at
line 153 first.  Part 1 evaluates the embedded merge_data on a valid
input in which entity B has direct_low null on every day of the window:
the run raises KeyError on `"quantity"`, so B is neither dropped from
any output nor recorded in any diagnostic file.  Part 2: no input
whatsoever makes merge_data return a table.  Part 3: whenever execution
reaches line 153 (the preceding listings stage, joins and column slice
all succeeded), the `"quantity"` lookup raises - both merge inputs
carried a quantity column, which pandas renamed `quantity_x` and
`quantity_y`. -/
theorem C3_merge_dies_before_drop :
    merge_data (some (mdOf mpC3 shC3 lsC1)) (some caC3) 100 daysC1
        = Except.error "KeyError: quantity"
    ∧ (∀ (md : Option MarketData) (ca : Option Frame) (mult : ℚ)
        (days : List String) (f : Frame),
        merge_data md ca mult days ≠ Except.ok f)
    ∧ (∀ f1 ls2 m1 m2 sh2 sel M : Frame, lsRest f1 = Except.ok ls2 →
        leftMergeKD m1 ls2 "" "_listings" = Except.ok m2 →
        sh2.select salesSelCols = Except.ok sel →
        leftMergeKD m2 sel "_x" "_y" = Except.ok M →
        M.getCol "quantity" = Except.error "KeyError: quantity") :=
  ⟨rfl, merge_data_not_ok,
    fun _ _ _ _ _ _ _ h1 h2 h3 h4 => sales_merge_line153_fails h1 h2 h3 h4⟩

/-- Claim C3 witness: the line-153 part instantiated on concrete frames
that reach the sales merge. -/
theorem C3_merge_dies_before_drop_witness :
    wM3.getCol "quantity" = Except.error "KeyError: quantity" :=
  C3_merge_dies_before_drop.2.2 wF1 wLs2b wM1 wM2b wSh2 wSel wM3
    rfl rfl rfl rfl

/-- Claim C4 counterexample.  The grid pair (A, 2025-03-11) has no
listing row; after the listings join (line 145) its `quantity` and
`direct_inventory_count` cells are NaN, not the 0 the claim requires -
the zero-fill of lines 122-123 only ever touched the rows the listings
table itself had.  (And no reconciled output exists at all: the run
fails at line 153.) -/
theorem C4_claim_counterexample :
    colVals m2C4 "quantity" = [Val.na]
    ∧ colVals m2C4 "direct_inventory_count" = [Val.na]
    ∧ Val.na ≠ Val.num 0 :=
  ⟨by decide, by decide, by decide⟩

/-- Claim C4 witness: the amended theorem applied to a concrete grid join
against an empty listings table. -/
theorem noListingRow_na_witness :
    rowGet wM2.cols (wM2.rows.getD 0 []) "direct_inventory_count" = Val.na :=
  @noListingRow_na wM1 wLsE wM2 "_listings" rfl (by decide)
    (Val.str "A", Val.str "2025-03-11") (by decide) "direct_inventory_count"
    (by decide) (wM2.rows.getD 0 []) (by decide) (by decide)

/-- Claim C5 (amended).  As stated the claim is false: line 131 flags
each individual sale row against its own price, not against the day's
maximum sale price, and no reconciled output is ever produced.  What
holds for the flag formula itself: it is true exactly when the joined
`direct_low` is a positive number q and the row's own price is a number
exceeding multiplier x q; in particular a zero or NaN `direct_low`
gives false regardless of the sale price (the division-by-zero guard of
the claim). -/
theorem extremeFlag_per_sale (mult : ℚ) (dl p : Val) :
    (extremeFlag mult dl p = Val.bool true
      ↔ ∃ q pr : ℚ, dl = Val.num q ∧ p = Val.num pr ∧ 0 < q ∧ mult * q < pr)
    ∧ extremeFlag mult (Val.num 0) p = Val.bool false := by
  constructor
  · cases dl <;> cases p <;>
      simp [extremeFlag, Val.gtB, Val.mul]
  · cases p <;> simp [extremeFlag, Val.gtB, Val.mul]

/-- Claim C5 witness: the flag formula at the spec's own example,
direct_low 1, sale price 150, multiplier 100. -/
theorem extremeFlag_per_sale_witness :
    extremeFlag 100 (Val.num 1) (Val.num 150) = Val.bool true :=
  (extremeFlag_per_sale 100 (Val.num 1) (Val.num 150)).1.mpr
    ⟨1, 150, rfl, rfl, by norm_num, by norm_num⟩

/-- Claim C5 counterexample.  Two sale events of entity A on 2025-03-11
at prices 150 and 1, with direct_low 1 and multiplier 100: the day's
maximum sale price (150) exceeds 100 x 1, so the claim (an iff against
the day's maximum) demands the flag true on both rows of the pair; the
flag column the sales stage computes is [true, false] - each row is
flagged against its own price. -/
theorem C5_claim_counterexample :
    colVals sh2C1 "is_extreme_outlier" = [Val.bool true, Val.bool false]
    ∧ Val.bool false ≠ Val.bool true :=
  ⟨by with_unfolding_all decide, by decide⟩

/-- Claim C6 counterexample.  All three required market tables are
present but empty, and the entity set is therefore empty too; the claim
demands a validation error, yet validation passes (`none`), and the run
then fails much later with a KeyError - not a validation error. -/
theorem C6_claim_counterexample :
    validateMergeData (some (mdOf mpC6 shC6 lsC6)) (some caC1) = none
    ∧ mpC6.rows = [] ∧ shC6.rows = [] ∧ lsC6.rows = []
    ∧ merge_data (some (mdOf mpC6 shC6 lsC6)) (some caC1) 100 daysC1
        = Except.error "KeyError: quantity" :=
  ⟨rfl, rfl, rfl, rfl, rfl⟩

/-- Claim C6 witness: the validation characterisation applied to a fully
present, nonempty input. -/
theorem validateMergeData_none_iff_witness :
    validateMergeData (some (mdOf mpC1 shC1 lsC1)) (some caC1) = none :=
  (validateMergeData_none_iff (some (mdOf mpC1 shC1 lsC1)) (some caC1)).mpr
    ⟨⟨mdOf mpC1 shC1 lsC1, rfl, rfl, rfl, rfl⟩, ⟨caC1, rfl, by decide⟩⟩

/-- Claim C7 counterexample.  A group with two equal observations has
standard deviation 0; the claim demands every value of such a group be
kept, but the z-score filter removes both rows: the transformed z-score
column is 0/0 = NaN and a NaN fails the `<= threshold` test. -/
theorem C7_claim_counterexample :
    remove_outliers_zscore [("a", 5), ("a", 5)] 6 = []
    ∧ ([] : List (String × ℚ)) ≠ [("a", 5), ("a", 5)] :=
  ⟨by with_unfolding_all decide, by decide⟩

/-- Claim C7 (amended).  As stated the claim is false: for a group whose
standard deviation is zero or undefined (all values equal, or a single
observation), `remove_outliers` with the z-score method removes every
row of the group - the z-score is NaN (0/0, or division by the NaN std
of a singleton) and the NaN comparison at clean_data.py line 29 is
False.  No NaN leaks downstream only because the rows themselves are
dropped. -/
theorem zscore_zero_std_group_removed (rows : List (String × ℚ)) (t : ℚ)
    (g : String) (c : ℚ) (h : ∀ p ∈ rows, p.1 = g → p.2 = c) :
    (remove_outliers_zscore rows t).filter (fun p => p.1 = g) = [] := by
  rw [List.filter_eq_nil_iff]
  intro p hp
  unfold remove_outliers_zscore at hp
  obtain ⟨hmem, hkeep⟩ := List.mem_filter.mp hp
  simp only [decide_eq_true_eq]
  intro hpg
  have hall : ∀ x ∈ groupValsQ rows g, x = c := by
    intro x hx
    unfold groupValsQ at hx
    obtain ⟨q, hq, rfl⟩ := List.mem_map.mp hx
    have := List.mem_filter.mp hq
    exact h q this.1 (by simpa using this.2)
  have hfalse := zscoreKeep_const hall p.2 t
  rw [hpg] at hkeep
  rw [hfalse] at hkeep
  cases hkeep

/-- Claim C7 witness: the amended theorem on a concrete table with a
constant group "a" and a spread-out group "b". -/
theorem zscore_zero_std_group_removed_witness :
    (remove_outliers_zscore [("a", 5), ("a", 5), ("b", 1), ("b", 9)] 6).filter
      (fun p => p.1 = "a") = [] :=
  zscore_zero_std_group_removed [("a", 5), ("a", 5), ("b", 1), ("b", 9)] 6 "a" 5
    (by decide)

/-- Claim C8 counterexample.  On the single-group series
[0, 0, 1, 10, 100] the first IQR pass keeps [0, 0, 1, 10] (bounds
[-15, 25] from Q1 = 0, Q3 = 10); re-applying the filter recomputes
Q3 = 3.25 on the survivors, shrinking the upper bound to 8.125 and
removing the 10 - one additional row, so the filter is not idempotent. -/
theorem C8_claim_counterexample :
    remove_outliers_iqr (remove_outliers_iqr
        [("a", 0), ("a", 0), ("a", 1), ("a", 10), ("a", 100)])
      ≠ remove_outliers_iqr [("a", 0), ("a", 0), ("a", 1), ("a", 10), ("a", 100)] := by
  with_unfolding_all decide

/-- Claim C8 (amended).  As stated the claim is false: quartile bounds
recomputed on a filtered group can shrink and remove further rows (see
the counterexample).  What holds: the filter only ever removes rows
(its output is a sublist of its input), and a group the filter leaves
untouched - an outlier-free input, the case the spec's parenthetical
describes - is a fixed point, so re-application removes zero rows. -/
theorem iqr_sublist_and_fixed_point :
    (∀ rows : List (String × ℚ), (remove_outliers_iqr rows).Sublist rows)
    ∧ (∀ rows : List (String × ℚ), remove_outliers_iqr rows = rows →
        remove_outliers_iqr (remove_outliers_iqr rows) = remove_outliers_iqr rows) := by
  refine ⟨fun rows => List.filter_sublist _, fun rows h => ?_⟩
  rw [h]
  exact h

/-- Claim C8 witness: a two-row group the filter keeps whole is a fixed
point of re-application. -/
theorem iqr_sublist_and_fixed_point_witness :
    remove_outliers_iqr (remove_outliers_iqr [("a", 1), ("a", 2)])
      = remove_outliers_iqr [("a", 1), ("a", 2)] :=
  iqr_sublist_and_fixed_point.2 [("a", 1), ("a", 2)] (by with_unfolding_all decide)

/-- Claim C9 (confirmed).  The daily aggregation of sale events
(clean_data.py lines 112-128) produces, for every (entity, day) group,
the summed quantity, the plain mean price, and the quantity-weighted
average price sum(price x quantity) / sum(quantity), which is null
(pandas NA, here `none`) - not NaN and not an error - exactly when the
summed quantity is zero; and every input event's (entity, day) key
appears among the output rows. -/
theorem aggregateSalesDaily_weighted (es : List SaleEvent) :
    (∀ g ∈ aggregateSalesDaily es,
      g.quantity = ((groupEvents es (g.sku, g.day)).map (fun e => e.quantity)).sum
      ∧ g.price_mean = ((groupEvents es (g.sku, g.day)).map (fun e => e.price)).sum
          / (((groupEvents es (g.sku, g.day)).map (fun e => e.price)).length : ℚ)
      ∧ g.price_weighted_avg =
          (if ((groupEvents es (g.sku, g.day)).map (fun e => e.quantity)).sum = 0
           then none
           else some
            (((groupEvents es (g.sku, g.day)).map (fun e => e.price * e.quantity)).sum
              / ((groupEvents es (g.sku, g.day)).map (fun e => e.quantity)).sum)))
    ∧ (∀ e ∈ es, (e.sku, e.day) ∈ (aggregateSalesDaily es).map (fun g => (g.sku, g.day))) := by
  constructor
  · intro g hg
    obtain ⟨k, hk, rfl⟩ := List.mem_map.mp hg
    exact ⟨rfl, rfl, rfl⟩
  · intro e he
    apply List.mem_map.mpr
    refine ⟨mkDailyAgg es (e.sku, e.day), List.mem_map.mpr ⟨(e.sku, e.day), ?_, rfl⟩, rfl⟩
    exact mem_dedupFirst.mpr (List.mem_map.mpr ⟨e, he, rfl⟩)

/-- Claim C9 witness: the spec's own example - sale events
(price 10, qty 2) and (price 20, qty 1) of one entity and day aggregate
to quantity 3, price_mean 15 and weighted average 40/3 = 13.33..; the
formula part is the theorem applied to that concrete group. -/
theorem aggregateSalesDaily_weighted_witness :
    ((aggregateSalesDaily [⟨"a", "d", 10, 2⟩, ⟨"a", "d", 20, 1⟩]).getD 0
        (mkDailyAgg [] ("x", "y"))).quantity
      = ((groupEvents [⟨"a", "d", 10, 2⟩, ⟨"a", "d", 20, 1⟩]
          ((((aggregateSalesDaily [⟨"a", "d", 10, 2⟩, ⟨"a", "d", 20, 1⟩]).getD 0
            (mkDailyAgg [] ("x", "y"))).sku,
          (((aggregateSalesDaily [⟨"a", "d", 10, 2⟩, ⟨"a", "d", 20, 1⟩]).getD 0
            (mkDailyAgg [] ("x", "y"))).day)))).map (fun e => e.quantity)).sum
    ∧ ((aggregateSalesDaily [⟨"a", "d", 10, 2⟩, ⟨"a", "d", 20, 1⟩]).getD 0
        (mkDailyAgg [] ("x", "y"))).quantity = 3
    ∧ ((aggregateSalesDaily [⟨"a", "d", 10, 2⟩, ⟨"a", "d", 20, 1⟩]).getD 0
        (mkDailyAgg [] ("x", "y"))).price_mean = 15
    ∧ ((aggregateSalesDaily [⟨"a", "d", 10, 2⟩, ⟨"a", "d", 20, 1⟩]).getD 0
        (mkDailyAgg [] ("x", "y"))).price_weighted_avg = some (40 / 3) :=
  ⟨((aggregateSalesDaily_weighted [⟨"a", "d", 10, 2⟩, ⟨"a", "d", 20, 1⟩]).1 _
      (by with_unfolding_all decide)).1,
    by with_unfolding_all decide, by with_unfolding_all decide,
    by with_unfolding_all decide⟩

/-- Claim C10 counterexample.  merge_data mutates its caller's listings
table in place: after a call on valid inputs the caller's frame has
gained the `date` and `is_missing_day` columns and its NaN quantity has
been overwritten with 0, so the inputs are not unchanged. -/
theorem C10_claim_counterexample :
    lsAfterCall mpC1 shC1 lsC1 caC1 ≠ lsC1 := by
  decide

/-- Claim C10 (amended).  As stated the claim is false for merge_data.
What holds: `remove_outliers` copies its input (clean_data.py line 25)
and the caller's table is unchanged; merge_data leaves card_attributes
untouched (line 105 rebinds a filtered copy) but mutates market_prices,
sales_history and listings in place - each gains a `date` column at
lines 109-111, and listings additionally gains `is_missing_day` and the
zero-filled quantity columns at lines 121-123. -/
theorem merge_mutation_profile :
    (∀ rows : List (String × ℚ), removeOutliersInputAfter rows = rows)
    ∧ (∀ caf : Frame, caAfterCall caf = caf)
    ∧ (∀ mp sh caf : Frame, preflightOk mp sh caf = true →
        "updated_at" ∈ mp.cols → "date" ∉ mp.cols →
        mpAfterCall mp sh caf ≠ mp)
    ∧ (∀ mp sh ls caf : Frame, preflightOk mp sh caf = true →
        "updated_at" ∈ mp.cols → "updated_at" ∈ ls.cols →
        "order_date" ∈ sh.cols → "date" ∉ sh.cols →
        shAfterCall mp sh ls caf ≠ sh)
    ∧ (∀ mp sh ls caf : Frame, preflightOk mp sh caf = true →
        "updated_at" ∈ mp.cols → "updated_at" ∈ ls.cols → "date" ∉ ls.cols →
        lsAfterCall mp sh ls caf ≠ ls) := by
  refine ⟨fun _ => rfl, fun _ => rfl, ?_, ?_, ?_⟩
  · intro mp sh caf hp hu hd
    unfold mpAfterCall
    rw [if_pos ⟨hp, hu⟩]
    exact ne_of_mem_cols (mem_date_setCol_new _ _) hd
  · intro mp sh ls caf hp hu hul ho hd
    unfold shAfterCall
    rw [if_pos ⟨hp, hu, hul, ho⟩]
    exact ne_of_mem_cols (mem_date_setCol_new _ _) hd
  · intro mp sh ls caf hp hu hul hd
    unfold lsAfterCall
    rw [if_pos ⟨hp, hu⟩, if_pos hul]
    have hdf : "date" ∈ (dateStamped ls "updated_at").cols :=
      mem_date_setCol_new _ _
    have hd1 : "date" ∈ (lsFlag1 ls).cols := mem_cols_setCol _ _ hdf
    have hd2 : "date" ∈ (lsFill2 ls).cols := mem_cols_setCol _ _ hd1
    have hd3 : "date" ∈ (lsFill3 ls).cols := mem_cols_setCol _ _ hd2
    split
    · split
      · split
        · split
          · exact ne_of_mem_cols hd3 hd
          · exact ne_of_mem_cols hd2 hd
        · exact ne_of_mem_cols hd1 hd
      · exact ne_of_mem_cols hdf hd
    · exact ne_of_mem_cols hdf hd

/-- Claim C10 witness: the listings-mutation part of the amended theorem
on a concrete input. -/
theorem merge_mutation_profile_witness :
    lsAfterCall mpC2 shC3 lsC4 caC3 ≠ lsC4 :=
  merge_mutation_profile.2.2.2.2 mpC2 shC3 lsC4 caC3
    (by decide) (by decide) (by decide) (by decide)
